/-
  Verification of the zone/alert reconciliation engine of the
  cicconee/weather-app repository (Go), against its natural-language
  specification.

  The Go sources are embedded shallowly:
  * pure functions (the delta engine `Service.delta`, the field merge
    `Zone.CopyUpdateableData`, the NWS conversions) become Lean functions;
  * the relational store becomes an explicit `DB` state, each SQL statement a
    state transformer, and `database/sql` transactions the combinator
    `Store.tx` that commits the new state on success and restores the original
    state on error;
  * fallible statements are parameterized by a fault oracle `Faults`
    (`true` = this write fails), standing for the nondeterminism of the
    database driver;
  * the worker-pool / channel fan-out of the `Fetcher` is given its
    sequential denotation: one `FetchOutcome` per submitted task, with the
    result maps folded over exactly one completion per task.

  Timestamps are embedded as `Int` (`time.Time.Before` = `<`); geographic
  coordinates are carried opaquely as `Int × Int` pairs (no claim performs
  coordinate arithmetic).
-/
import Mathlib

/-! ## Geometry (internal/geometry) -/

/-- `geometry.Point`: a lon/lat pair, carried opaquely. -/
abbrev Point := Int × Int

/-- `geometry.PointCollection`: a list of points. -/
abbrev PointCollection := List (Int × Int)

/-- `geometry.Polygon`: a list of rings; index 0 is the perimeter, the rest
are holes. -/
abbrev Polygon := List (List (Int × Int))

/-- `Polygon.Permiter` (sic): the first ring, `nil` (here `[]`) if empty. -/
def Polygon.Permiter (p : Polygon) : List (Int × Int) :=
  match p with
  | [] => []
  | x :: _ => x

/-- `Polygon.Holes`: all rings after the first (`nil` when `len(p) < 2`). -/
def Polygon.Holes (p : Polygon) : List (List (Int × Int)) :=
  List.drop 1 p

/-- `geometry.MultiPolygon`. -/
abbrev MultiPolygon := List Polygon

/-! ## In-memory zone model (internal/state/zone.go, geometry.go) -/

/-- `state.Hole`: an in-memory hole ring. -/
structure Hole where
  id : Nat
  perimieterID : Nat
  points : List (Int × Int)
deriving DecidableEq, Repr

/-- `state.Perimeter`: an in-memory polygon perimeter with its holes. -/
structure Perimeter where
  id : Nat
  zoneID : Nat
  points : List (Int × Int)
  holes : List Hole
deriving DecidableEq, Repr

/-- `state.Zone`. Go's `Type` field is spelled `ztype` (`Type` is reserved in
Lean); `EffectiveDate`, `CreatedAt`, `UpdatedAt` are `Int` timestamps. -/
structure Zone where
  id : Nat
  uri : String
  code : String
  ztype : String
  name : String
  effectiveDate : Int
  state : String
  createdAt : Int
  updatedAt : Int
  geometry : List Perimeter
deriving DecidableEq, Repr

/-- `Zone.CopyUpdateableData`: copies URI, Code, Type, Name, EffectiveDate,
State and Geometry from `c` onto `z`; ID, CreatedAt, UpdatedAt keep `z`'s
values. -/
def Zone.copyUpdateableData (z : Zone) (c : Zone) : Zone :=
  { z with
    uri := c.uri
    code := c.code
    ztype := c.ztype
    name := c.name
    effectiveDate := c.effectiveDate
    state := c.state
    geometry := c.geometry }

/-- `state.NewHoleCollection`. -/
def NewHoleCollection (geoHoles : List (List (Int × Int))) : List Hole :=
  geoHoles.map (fun pts => { id := 0, perimieterID := 0, points := pts })

/-- `state.NewPerimeter`. -/
def NewPerimeter (poly : Polygon) : Perimeter :=
  { id := 0
    zoneID := 0
    points := poly.Permiter
    holes := NewHoleCollection poly.Holes }

/-- `state.NewGeometry`. -/
def NewGeometry (mp : MultiPolygon) : List Perimeter :=
  List.map NewPerimeter mp

/-- `nws.Zone`: the zone detail returned by the remote NWS client
(`GetZone`); its URI is taken from the remote feature's `id` field
(`feature.parseZone`). -/
structure NWSZone where
  uri : String
  code : String
  ztype : String
  name : String
  effectiveDate : Int
  state : String
  geometry : MultiPolygon
deriving DecidableEq, Repr

/-- `state.zoneFromNWS`: store-level zone built from a remote zone detail.
ID/CreatedAt/UpdatedAt are zero values. -/
def zoneFromNWS (z : NWSZone) : Zone :=
  { id := 0
    uri := z.uri
    code := z.code
    ztype := z.ztype
    name := z.name
    effectiveDate := z.effectiveDate
    state := z.state
    createdAt := 0
    updatedAt := 0
    geometry := NewGeometry z.geometry }

/-! ## ZoneURIMap (internal/state/zone.go) -/

/-- `state.ZoneURIMap`: embedded as an association list from URI to zone. -/
abbrev ZoneURIMap := List (String × Zone)

/-- Go map read `m[k]`. -/
def lookupURI (m : ZoneURIMap) (k : String) : Option Zone :=
  match m.find? (fun p => p.1 == k) with
  | some p => some p.2
  | none => none

/-- Go map remove `delete(m, k)`. -/
def eraseURI (m : ZoneURIMap) (k : String) : ZoneURIMap :=
  m.filter (fun p => p.1 != k)

/-- Well-formedness of a stored catalog, as produced by
`ZoneURIMap.Select`: keys are unique, and each entry is keyed by its zone's
URI. -/
def ZoneURIMap.WF (m : ZoneURIMap) : Prop :=
  (List.map Prod.fst m).Nodup ∧ ∀ p ∈ m, p.1 = p.2.uri

instance (m : ZoneURIMap) : Decidable m.WF := by
  unfold ZoneURIMap.WF
  infer_instance

/-! ## DeltaEngine (internal/state/delta.go, service.go `Service.delta`) -/

/-- `state.ZoneDelta`. -/
structure ZoneDelta where
  Insert : List Zone
  Update : List Zone
  Delete : List Zone
deriving DecidableEq, Repr

/-- `ZoneDelta.TotalOperations`. -/
def ZoneDelta.TotalOperations (z : ZoneDelta) : Nat :=
  z.Insert.length + z.Update.length + z.Delete.length

/-- `ZoneDelta.TotalInsertUpdates`. -/
def ZoneDelta.TotalInsertUpdates (z : ZoneDelta) : Nat :=
  z.Insert.length + z.Update.length

/-- `ZoneDelta.InsertUpdate`. -/
def ZoneDelta.InsertUpdate (z : ZoneDelta) : List Zone :=
  z.Insert ++ z.Update

/-- `Service.delta` (service.go): walks the fresh catalog; a fresh zone with
a stored match emits an Update when the stored effective date is strictly
older (carrying the stored identity with the fresh data copied in) and
removes the match from the working map; a fresh zone without a match emits
an Insert; every entry left in the working map afterwards emits a Delete. -/
def Service.delta : List Zone → ZoneURIMap → ZoneDelta
  | [], storedZones =>
    { Insert := [], Update := [], Delete := storedZones.map Prod.snd }
  | updatedZone :: rest, storedZones =>
    match lookupURI storedZones updatedZone.uri with
    | some storedZone =>
      let d := Service.delta rest (eraseURI storedZones storedZone.uri)
      if storedZone.effectiveDate < updatedZone.effectiveDate then
        { d with Update := storedZone.copyUpdateableData updatedZone :: d.Update }
      else
        d
    | none =>
      let d := Service.delta rest storedZones
      { d with Insert := updatedZone :: d.Insert }

/-! ### Association-list lemmas for `ZoneURIMap` -/

theorem lookupURI_cons (p : String × Zone) (m : ZoneURIMap) (k : String) :
    lookupURI (p :: m) k = if p.1 = k then some p.2 else lookupURI m k := by
  by_cases h : p.1 = k
  · simp [lookupURI, List.find?_cons_of_pos, h]
  · simp [lookupURI, List.find?_cons_of_neg, h]

theorem lookupURI_eq_none_iff {m : ZoneURIMap} {k : String} :
    lookupURI m k = none ↔ ∀ p ∈ m, p.1 ≠ k := by
  constructor
  · intro h p hp hk
    cases hf : m.find? (fun q => q.1 == k) with
    | none =>
      have := List.find?_eq_none.mp hf p hp
      simp [hk] at this
    | some q => simp [lookupURI, hf] at h
  · intro h
    cases hf : m.find? (fun q => q.1 == k) with
    | none => simp [lookupURI, hf]
    | some q =>
      have hq := List.find?_some hf
      have hmem := List.mem_of_find?_eq_some hf
      exact absurd (by simpa using hq) (h q hmem)

theorem lookupURI_mem {m : ZoneURIMap} {k : String} {z : Zone}
    (h : lookupURI m k = some z) : (k, z) ∈ m := by
  cases hf : m.find? (fun q => q.1 == k) with
  | none => simp [lookupURI, hf] at h
  | some q =>
    have hq : q.1 = k := by simpa using List.find?_some hf
    have hmem := List.mem_of_find?_eq_some hf
    have hz : q.2 = z := by simp [lookupURI, hf] at h; exact h
    have : (k, z) = q := by
      cases q; simp_all
    rw [this]; exact hmem

theorem lookupURI_WF_uri {m : ZoneURIMap} {k : String} {z : Zone}
    (hs : m.WF) (h : lookupURI m k = some z) : z.uri = k :=
  (hs.2 (k, z) (lookupURI_mem h)).symm

theorem eraseURI_WF {m : ZoneURIMap} {k : String} (hs : m.WF) :
    (eraseURI m k).WF := by
  constructor
  · exact (hs.1).sublist ((List.filter_sublist m).map Prod.fst)
  · intro p hp
    exact hs.2 p (List.mem_of_mem_filter hp)

theorem lookupURI_erase_ne {m : ZoneURIMap} {k k' : String} (h : k' ≠ k) :
    lookupURI (eraseURI m k) k' = lookupURI m k' := by
  induction m with
  | nil => rfl
  | cons p rest ih =>
    by_cases hpk : p.1 = k
    · have : eraseURI (p :: rest) k = eraseURI rest k := by
        simp [eraseURI, List.filter_cons, hpk]
      rw [this, ih, lookupURI_cons]
      have : p.1 ≠ k' := by rw [hpk]; exact fun e => h e.symm
      simp [this]
    · have : eraseURI (p :: rest) k = p :: eraseURI rest k := by
        simp [eraseURI, List.filter_cons, hpk]
      rw [this, lookupURI_cons, lookupURI_cons, ih]

/-! ### Closed forms for the three delta components -/

theorem delta_Insert_eq (fresh : List Zone) (stored : ZoneURIMap)
    (hf : (fresh.map Zone.uri).Nodup) (hs : stored.WF) :
    (Service.delta fresh stored).Insert
      = fresh.filter (fun z => (lookupURI stored z.uri).isNone) := by
  induction fresh generalizing stored with
  | nil => simp [Service.delta]
  | cons u rest ih =>
    have hf2 : (∀ x ∈ rest, ¬x.uri = u.uri) ∧ (List.map Zone.uri rest).Nodup := by
      simpa using hf
    have hf' : (rest.map Zone.uri).Nodup := hf2.2
    have hu : u.uri ∉ rest.map Zone.uri := by
      intro hm
      obtain ⟨x, hx, e⟩ := List.mem_map.mp hm
      exact hf2.1 x hx e
    cases hlk : lookupURI stored u.uri with
    | none =>
      simp only [Service.delta, hlk]
      rw [ih stored hf' hs]
      simp [List.filter_cons, hlk]
    | some s =>
      have hsuri : s.uri = u.uri := lookupURI_WF_uri hs hlk
      have hrec : (Service.delta rest (eraseURI stored s.uri)).Insert
          = rest.filter (fun z => (lookupURI stored z.uri).isNone) := by
        rw [ih _ hf' (eraseURI_WF hs)]
        apply List.filter_congr
        intro z hz
        have hne : z.uri ≠ s.uri := by
          rw [hsuri]
          intro e
          exact hu (e ▸ List.mem_map_of_mem Zone.uri hz)
        rw [lookupURI_erase_ne hne]
      simp only [Service.delta, hlk]
      split
      · simpa [List.filter_cons, hlk] using hrec
      · simpa [List.filter_cons, hlk] using hrec

theorem delta_Update_eq (fresh : List Zone) (stored : ZoneURIMap)
    (hf : (fresh.map Zone.uri).Nodup) (hs : stored.WF) :
    (Service.delta fresh stored).Update
      = fresh.filterMap (fun z =>
          match lookupURI stored z.uri with
          | some s =>
            if s.effectiveDate < z.effectiveDate
            then some (s.copyUpdateableData z) else none
          | none => none) := by
  induction fresh generalizing stored with
  | nil => simp [Service.delta]
  | cons u rest ih =>
    have hf2 : (∀ x ∈ rest, ¬x.uri = u.uri) ∧ (List.map Zone.uri rest).Nodup := by
      simpa using hf
    have hf' : (rest.map Zone.uri).Nodup := hf2.2
    have hu : u.uri ∉ rest.map Zone.uri := by
      intro hm
      obtain ⟨x, hx, e⟩ := List.mem_map.mp hm
      exact hf2.1 x hx e
    cases hlk : lookupURI stored u.uri with
    | none =>
      simp only [Service.delta, hlk]
      rw [ih stored hf' hs]
      simp [List.filterMap_cons, hlk]
    | some s =>
      have hsuri : s.uri = u.uri := lookupURI_WF_uri hs hlk
      have hrec : (Service.delta rest (eraseURI stored s.uri)).Update
          = rest.filterMap (fun z =>
              match lookupURI stored z.uri with
              | some s' =>
                if s'.effectiveDate < z.effectiveDate
                then some (s'.copyUpdateableData z) else none
              | none => none) := by
        rw [ih _ hf' (eraseURI_WF hs)]
        apply List.filterMap_congr
        intro z hz
        have hne : z.uri ≠ s.uri := by
          rw [hsuri]
          intro e
          exact hu (e ▸ List.mem_map_of_mem Zone.uri hz)
        rw [lookupURI_erase_ne hne]
      simp only [Service.delta, hlk]
      split
      · next hlt => simp [List.filterMap_cons, hlk, hlt, hrec]
      · next hlt => simp [List.filterMap_cons, hlk, hlt, hrec]

theorem delta_Delete_eq (fresh : List Zone) (stored : ZoneURIMap)
    (hf : (fresh.map Zone.uri).Nodup) (hs : stored.WF) :
    (Service.delta fresh stored).Delete
      = (stored.filter (fun p => !((fresh.map Zone.uri).contains p.1))).map Prod.snd := by
  induction fresh generalizing stored with
  | nil => simp [Service.delta]
  | cons u rest ih =>
    have hf2 : (∀ x ∈ rest, ¬x.uri = u.uri) ∧ (List.map Zone.uri rest).Nodup := by
      simpa using hf
    have hf' : (rest.map Zone.uri).Nodup := hf2.2
    cases hlk : lookupURI stored u.uri with
    | none =>
      simp only [Service.delta, hlk]
      rw [ih stored hf' hs]
      congr 1
      apply List.filter_congr
      intro p hp
      have : p.1 ≠ u.uri := lookupURI_eq_none_iff.mp hlk p hp
      simp [List.contains_cons, this, fun e : u.uri = p.1 => this e.symm]
    | some s =>
      have hsuri : s.uri = u.uri := lookupURI_WF_uri hs hlk
      have hrec := ih (eraseURI stored s.uri) hf' (eraseURI_WF hs)
      have hstep :
          (eraseURI stored s.uri).filter (fun p => !((rest.map Zone.uri).contains p.1))
            = stored.filter (fun p => !(((u :: rest).map Zone.uri).contains p.1)) := by
        unfold eraseURI
        rw [List.filter_filter]
        apply List.filter_congr
        intro p hp
        by_cases h1 : p.1 = u.uri
        · simp [List.contains_cons, h1, hsuri]
        · simp [List.contains_cons, hsuri, h1, fun e : u.uri = p.1 => h1 e.symm]
      simp only [Service.delta, hlk]
      split
      · simp only [hrec, hstep]
      · simp only [hrec, hstep]

theorem length_filter_add_length_filterMap_le {α β : Type} (l : List α)
    (p : α → Bool) (g : α → Option β)
    (h : ∀ a ∈ l, p a = true → g a = none) :
    (l.filter p).length + (l.filterMap g).length ≤ l.length := by
  induction l with
  | nil => simp
  | cons a rest ih =>
    have ih' := ih (fun b hb => h b (List.mem_cons_of_mem a hb))
    by_cases hp : p a = true
    · have hg := h a (List.mem_cons_self a rest) hp
      simp [List.filter_cons, List.filterMap_cons, hp, hg]
      omega
    · have hp' : p a = false := by simpa using hp
      cases hg : g a with
      | none =>
        simp [List.filter_cons, List.filterMap_cons, hp', hg]
        omega
      | some b =>
        simp [List.filter_cons, List.filterMap_cons, hp', hg]
        omega

/-- C1: for a fresh catalog unique by URI and a well-formed stored catalog,
`Service.delta` computes: Insert = exactly the fresh zones whose URI is not a
stored key; Delete = exactly the stored zones whose URI appears in no fresh
zone; Update ⊆ zones present in both catalogs, only for strictly newer fresh
effective dates; the three sets are pairwise disjoint by URI; and the total
operation count is at most `|fresh| + |stored|`. -/
theorem delta_insert_delete_update_characterization
    (fresh : List Zone) (stored : ZoneURIMap)
    (hf : (fresh.map Zone.uri).Nodup) (hs : stored.WF) :
    (∀ z, z ∈ (Service.delta fresh stored).Insert ↔
        z ∈ fresh ∧ lookupURI stored z.uri = none)
  ∧ (∀ z, z ∈ (Service.delta fresh stored).Delete ↔
        ∃ p ∈ stored, z = p.2 ∧ ∀ f ∈ fresh, f.uri ≠ p.1)
  ∧ (∀ u ∈ (Service.delta fresh stored).Update,
        ∃ f ∈ fresh, ∃ s, lookupURI stored f.uri = some s ∧
          s.effectiveDate < f.effectiveDate ∧ u = s.copyUpdateableData f)
  ∧ (∀ zi ∈ (Service.delta fresh stored).Insert,
      ∀ zu ∈ (Service.delta fresh stored).Update, zi.uri ≠ zu.uri)
  ∧ (∀ zi ∈ (Service.delta fresh stored).Insert,
      ∀ zd ∈ (Service.delta fresh stored).Delete, zi.uri ≠ zd.uri)
  ∧ (∀ zu ∈ (Service.delta fresh stored).Update,
      ∀ zd ∈ (Service.delta fresh stored).Delete, zu.uri ≠ zd.uri)
  ∧ (Service.delta fresh stored).TotalOperations ≤ fresh.length + stored.length := by
  have hI := delta_Insert_eq fresh stored hf hs
  have hU := delta_Update_eq fresh stored hf hs
  have hD := delta_Delete_eq fresh stored hf hs
  have insertIff : ∀ z, z ∈ (Service.delta fresh stored).Insert ↔
      z ∈ fresh ∧ lookupURI stored z.uri = none := by
    intro z
    rw [hI, List.mem_filter]
    simp [Option.isNone_iff_eq_none]
  have deleteIff : ∀ z, z ∈ (Service.delta fresh stored).Delete ↔
      ∃ p ∈ stored, z = p.2 ∧ ∀ f ∈ fresh, f.uri ≠ p.1 := by
    intro z
    rw [hD]
    simp only [List.mem_map, List.mem_filter]
    constructor
    · rintro ⟨p, ⟨hp, hcon⟩, hz⟩
      refine ⟨p, hp, hz.symm, ?_⟩
      intro f hfm he
      have hmm : p.1 ∈ fresh.map Zone.uri := he ▸ List.mem_map_of_mem Zone.uri hfm
      simp only [Bool.not_eq_true'] at hcon
      simp_all
    · rintro ⟨p, hp, hz, hnone⟩
      refine ⟨p, ⟨hp, ?_⟩, hz.symm⟩
      simp only [Bool.not_eq_true']
      rw [← Bool.not_eq_true]
      intro hcon
      have : p.1 ∈ fresh.map Zone.uri := by simpa using hcon
      obtain ⟨f, hfm, he⟩ := List.mem_map.mp this
      exact hnone f hfm he
  have updateOnly : ∀ u ∈ (Service.delta fresh stored).Update,
      ∃ f ∈ fresh, ∃ s, lookupURI stored f.uri = some s ∧
        s.effectiveDate < f.effectiveDate ∧ u = s.copyUpdateableData f := by
    intro u hu
    rw [hU] at hu
    obtain ⟨f, hfm, hfu⟩ := List.mem_filterMap.mp hu
    cases hlk : lookupURI stored f.uri with
    | none => rw [hlk] at hfu; simp at hfu
    | some s =>
      rw [hlk] at hfu
      by_cases hlt : s.effectiveDate < f.effectiveDate
      · refine ⟨f, hfm, s, hlk, hlt, ?_⟩
        simp [hlt] at hfu
        exact hfu.symm
      · simp [hlt] at hfu
  have updateUri : ∀ u ∈ (Service.delta fresh stored).Update,
      ∃ f ∈ fresh, u.uri = f.uri ∧ (lookupURI stored u.uri).isSome := by
    intro u hu
    obtain ⟨f, hfm, s, hlk, _, he⟩ := updateOnly u hu
    have : u.uri = f.uri := by rw [he]; rfl
    exact ⟨f, hfm, this, by rw [this, hlk]; rfl⟩
  have deleteUri : ∀ zd ∈ (Service.delta fresh stored).Delete,
      ∀ f ∈ fresh, f.uri ≠ zd.uri := by
    intro zd hzd f hfm
    obtain ⟨p, hp, hz, hnone⟩ := (deleteIff zd).mp hzd
    have : p.1 = zd.uri := by rw [hz]; exact hs.2 p hp
    rw [← this]
    exact hnone f hfm
  refine ⟨insertIff, deleteIff, updateOnly, ?_, ?_, ?_, ?_⟩
  · intro zi hzi zu hzu he
    have h1 := ((insertIff zi).mp hzi).2
    obtain ⟨f, hfm, hu1, hu2⟩ := updateUri zu hzu
    rw [he] at h1
    rw [h1] at hu2
    simp at hu2
  · intro zi hzi zd hzd he
    have h1 := ((insertIff zi).mp hzi).1
    exact deleteUri zd hzd zi h1 he
  · intro zu hzu zd hzd he
    obtain ⟨f, hfm, hu1, _⟩ := updateUri zu hzu
    exact deleteUri zd hzd f hfm (hu1 ▸ he)
  · unfold ZoneDelta.TotalOperations
    rw [hI, hU, hD]
    have h1 : ((stored.filter
        (fun p => !((fresh.map Zone.uri).contains p.1))).map Prod.snd).length
        ≤ stored.length := by
      rw [List.length_map]
      exact List.length_filter_le _ stored
    have h2 := length_filter_add_length_filterMap_le fresh
      (fun z => (lookupURI stored z.uri).isNone)
      (fun z =>
        match lookupURI stored z.uri with
        | some s =>
          if s.effectiveDate < z.effectiveDate
          then some (s.copyUpdateableData z) else none
        | none => none)
      (by
        intro a _ hp
        have h3 : lookupURI stored a.uri = none := by simpa using hp
        simp [h3])
    omega

/-- Concrete catalogs for the C1 witness: the spec's worked example
`fresh=[z1@eff2]`, `stored={z1: z1@eff1}`. -/
def zStoredEx : Zone :=
  { id := 7, uri := "z1", code := "ilc032", ztype := "county", name := "N",
    effectiveDate := 1, state := "IL", createdAt := 0, updatedAt := 0,
    geometry := [] }

def zFreshEx : Zone :=
  { id := 0, uri := "z1", code := "ilc032", ztype := "county", name := "N2",
    effectiveDate := 2, state := "IL", createdAt := 0, updatedAt := 0,
    geometry := [{ id := 0, zoneID := 0, points := [(0, 0), (0, 1), (1, 0)],
                   holes := [] }] }

def freshEx : List Zone := [zFreshEx]

def storedEx : ZoneURIMap := [("z1", zStoredEx)]

/-- Witness for C1 at the spec's worked example. -/
theorem delta_insert_delete_update_characterization_witness :
    ((freshEx.map Zone.uri).Nodup ∧ storedEx.WF)
  ∧ ((∀ z, z ∈ (Service.delta freshEx storedEx).Insert ↔
        z ∈ freshEx ∧ lookupURI storedEx z.uri = none)
  ∧ (∀ z, z ∈ (Service.delta freshEx storedEx).Delete ↔
        ∃ p ∈ storedEx, z = p.2 ∧ ∀ f ∈ freshEx, f.uri ≠ p.1)
  ∧ (∀ u ∈ (Service.delta freshEx storedEx).Update,
        ∃ f ∈ freshEx, ∃ s, lookupURI storedEx f.uri = some s ∧
          s.effectiveDate < f.effectiveDate ∧ u = s.copyUpdateableData f)
  ∧ (∀ zi ∈ (Service.delta freshEx storedEx).Insert,
      ∀ zu ∈ (Service.delta freshEx storedEx).Update, zi.uri ≠ zu.uri)
  ∧ (∀ zi ∈ (Service.delta freshEx storedEx).Insert,
      ∀ zd ∈ (Service.delta freshEx storedEx).Delete, zi.uri ≠ zd.uri)
  ∧ (∀ zu ∈ (Service.delta freshEx storedEx).Update,
      ∀ zd ∈ (Service.delta freshEx storedEx).Delete, zu.uri ≠ zd.uri)
  ∧ (Service.delta freshEx storedEx).TotalOperations
      ≤ freshEx.length + storedEx.length) :=
  ⟨⟨by decide, by decide⟩,
   delta_insert_delete_update_characterization freshEx storedEx
     (by decide) (by decide)⟩

theorem lookupURI_append (l1 l2 : ZoneURIMap) (k : String) :
    lookupURI (l1 ++ l2) k
      = match lookupURI l1 k with
        | some v => some v
        | none => lookupURI l2 k := by
  induction l1 with
  | nil => simp [lookupURI]
  | cons p rest ih =>
    rw [List.cons_append, lookupURI_cons, lookupURI_cons]
    by_cases h : p.1 = k
    · simp [h]
    · simp [h, ih]

theorem lookupURI_eq_some_of_mem {m : ZoneURIMap} {k : String} {z : Zone}
    (hnd : (m.map Prod.fst).Nodup) (hm : (k, z) ∈ m) :
    lookupURI m k = some z := by
  induction m with
  | nil => simp at hm
  | cons p rest ih =>
    have hnd2 : (∀ x : Zone, (p.1, x) ∉ rest) ∧ (rest.map Prod.fst).Nodup := by
      simpa using hnd
    rw [lookupURI_cons]
    rcases List.mem_cons.mp hm with he | hm'
    · rw [← he]
      simp
    · have hp1 : p.1 ≠ k := by
        intro e
        exact hnd2.1 z (e ▸ hm')
      simp only [hp1, if_false]
      exact ih hnd2.2 hm'

theorem lookupURI_ne_none_of_key {m : ZoneURIMap} {k : String}
    (h : k ∈ m.map Prod.fst) : lookupURI m k ≠ none := by
  intro hn
  obtain ⟨p, hp, he⟩ := List.mem_map.mp h
  exact lookupURI_eq_none_iff.mp hn p hp he

theorem delta_Update_mem {fresh : List Zone} {stored : ZoneURIMap}
    (hf : (fresh.map Zone.uri).Nodup) (hs : stored.WF) :
    ∀ u ∈ (Service.delta fresh stored).Update,
      ∃ f ∈ fresh, ∃ s, lookupURI stored f.uri = some s ∧
        s.effectiveDate < f.effectiveDate ∧ u = s.copyUpdateableData f := by
  intro u hu
  rw [delta_Update_eq fresh stored hf hs] at hu
  obtain ⟨f, hfm, hfu⟩ := List.mem_filterMap.mp hu
  cases hlk : lookupURI stored f.uri with
  | none => rw [hlk] at hfu; simp at hfu
  | some s =>
    rw [hlk] at hfu
    by_cases hlt : s.effectiveDate < f.effectiveDate
    · simp only [hlt, if_true] at hfu
      exact ⟨f, hfm, s, hlk, hlt, (Option.some_inj.mp hfu).symm⟩
    · simp [hlt] at hfu

theorem delta_Delete_uri {fresh : List Zone} {stored : ZoneURIMap}
    (hf : (fresh.map Zone.uri).Nodup) (hs : stored.WF) :
    ∀ zd ∈ (Service.delta fresh stored).Delete, zd.uri ∉ fresh.map Zone.uri := by
  intro zd hzd
  rw [delta_Delete_eq fresh stored hf hs] at hzd
  obtain ⟨p, hp, he⟩ := List.mem_map.mp hzd
  have hpf := List.mem_filter.mp hp
  have huri : zd.uri = p.1 := by rw [← he]; exact (hs.2 p hpf.1).symm
  rw [huri]
  intro hmem
  have h2 := hpf.2
  simp only [Bool.not_eq_true'] at h2
  simp_all

theorem delta_Delete_mem_of {fresh : List Zone} {stored : ZoneURIMap}
    (hf : (fresh.map Zone.uri).Nodup) (hs : stored.WF) {p : String × Zone}
    (hp : p ∈ stored) (hnm : p.1 ∉ fresh.map Zone.uri) :
    p.2 ∈ (Service.delta fresh stored).Delete := by
  rw [delta_Delete_eq fresh stored hf hs]
  apply List.mem_map_of_mem
  apply List.mem_filter.mpr
  refine ⟨hp, ?_⟩
  simp_all

/-! ## Delta application (spec §8 idempotence) -/

/-- Modelled from the spec: whether a stored entry survives the Delete set of
a delta. -/
def applyDeltaKeep (d : ZoneDelta) (p : String × Zone) : Bool :=
  d.Delete.all (fun z => z.uri != p.1)

/-- Modelled from the spec: replace a surviving stored entry with its Update
zone when one matches its URI. -/
def applyDeltaReplace (d : ZoneDelta) (p : String × Zone) : String × Zone :=
  match d.Update.find? (fun z => z.uri == p.1) with
  | some u => (p.1, u)
  | none => p

/-- Modelled from the spec: the application of a computed delta to the stored
catalog — remove the Delete zones, replace matched entries with the Update
zones, add the Insert zones.  The repository applies deltas against the SQL
store (`Service.writeDelta`); this pure form is the one quantified over by
the spec's idempotence property. -/
def applyDelta (stored : ZoneURIMap) (d : ZoneDelta) : ZoneURIMap :=
  (stored.filter (applyDeltaKeep d)).map (applyDeltaReplace d)
    ++ d.Insert.map (fun z => (z.uri, z))

theorem applyDeltaReplace_fst (d : ZoneDelta) (p : String × Zone) :
    (applyDeltaReplace d p).1 = p.1 := by
  unfold applyDeltaReplace
  cases d.Update.find? (fun z => z.uri == p.1) <;> rfl

theorem applyDelta_WF {fresh : List Zone} {stored : ZoneURIMap}
    (hf : (fresh.map Zone.uri).Nodup) (hs : stored.WF) :
    (applyDelta stored (Service.delta fresh stored)).WF := by
  have hI := delta_Insert_eq fresh stored hf hs
  constructor
  · unfold applyDelta
    rw [List.map_append, List.nodup_append]
    refine ⟨?_, ?_, ?_⟩
    · rw [List.map_map]
      have : (stored.filter (applyDeltaKeep (Service.delta fresh stored))).map
          (Prod.fst ∘ applyDeltaReplace (Service.delta fresh stored))
          = (stored.filter (applyDeltaKeep (Service.delta fresh stored))).map Prod.fst := by
        apply List.map_congr_left
        intro p _
        exact applyDeltaReplace_fst _ p
      rw [this]
      exact hs.1.sublist ((List.filter_sublist stored).map Prod.fst)
    · rw [List.map_map]
      have : (Service.delta fresh stored).Insert.map (Prod.fst ∘ fun z => (z.uri, z))
          = (Service.delta fresh stored).Insert.map Zone.uri := by
        apply List.map_congr_left
        intro z _
        rfl
      rw [this, hI]
      exact hf.sublist ((List.filter_sublist fresh).map Zone.uri)
    · intro k hk1 hk2
      obtain ⟨q, hq, hqe⟩ := List.mem_map.mp hk1
      obtain ⟨q0, hq0, hq0e⟩ := List.mem_map.mp hq
      obtain ⟨p2, hp2, hp2e⟩ := List.mem_map.mp hk2
      obtain ⟨z, hz, hze⟩ := List.mem_map.mp hp2
      have hkey : k ∈ stored.map Prod.fst := by
        rw [← hqe, ← hq0e, applyDeltaReplace_fst]
        exact List.mem_map_of_mem Prod.fst (List.mem_of_mem_filter hq0)
      have hzuri : k = z.uri := by rw [← hp2e, ← hze]
      have hznone : lookupURI stored z.uri = none := by
        rw [hI] at hz
        have := (List.mem_filter.mp hz).2
        simpa [Option.isNone_iff_eq_none] using this
      rw [hzuri] at hkey
      exact lookupURI_ne_none_of_key hkey hznone
  · intro p hp
    unfold applyDelta at hp
    rcases List.mem_append.mp hp with h1 | h2
    · obtain ⟨q, hq, hqe⟩ := List.mem_map.mp h1
      rw [← hqe]
      unfold applyDeltaReplace
      cases hfind : (Service.delta fresh stored).Update.find?
          (fun z => z.uri == q.1) with
      | some u =>
        have hbe := List.find?_some hfind
        have : u.uri = q.1 := by simpa using hbe
        simp [this]
      | none => exact hs.2 q (List.mem_of_mem_filter hq)
    · obtain ⟨z, hz, hze⟩ := List.mem_map.mp h2
      rw [← hze]

theorem applyDelta_lookup_fresh {fresh : List Zone} {stored : ZoneURIMap}
    (hf : (fresh.map Zone.uri).Nodup) (hs : stored.WF) :
    ∀ f ∈ fresh, ∃ v,
      lookupURI (applyDelta stored (Service.delta fresh stored)) f.uri = some v ∧
        ¬(v.effectiveDate < f.effectiveDate) := by
  have hinj : ∀ a ∈ fresh, ∀ b ∈ fresh, a.uri = b.uri → a = b :=
    List.inj_on_of_nodup_map hf
  have hI := delta_Insert_eq fresh stored hf hs
  have hU := delta_Update_eq fresh stored hf hs
  have hUmem := delta_Update_mem hf hs
  have hDuri := delta_Delete_uri hf hs
  have hWF := applyDelta_WF hf hs
  intro f hfm
  have hnd1 : (((stored.filter (applyDeltaKeep (Service.delta fresh stored))).map
      (applyDeltaReplace (Service.delta fresh stored))).map Prod.fst).Nodup := by
    have := hWF.1
    unfold applyDelta at this
    rw [List.map_append] at this
    exact (List.nodup_append.mp this).1
  have hnd2 : (((Service.delta fresh stored).Insert.map
      (fun z => (z.uri, z))).map Prod.fst).Nodup := by
    have := hWF.1
    unfold applyDelta at this
    rw [List.map_append] at this
    exact (List.nodup_append.mp this).2.1
  cases hlk : lookupURI stored f.uri with
  | some s =>
    have hmem : (f.uri, s) ∈ stored := lookupURI_mem hlk
    have hPD : applyDeltaKeep (Service.delta fresh stored) (f.uri, s) = true := by
      unfold applyDeltaKeep
      apply List.all_eq_true.mpr
      intro zd hzd
      have hni := hDuri zd hzd
      have hne : zd.uri ≠ f.uri := fun e =>
        hni (e ▸ List.mem_map_of_mem Zone.uri hfm)
      simpa using hne
    have hmemf : (f.uri, s) ∈ stored.filter
        (applyDeltaKeep (Service.delta fresh stored)) :=
      List.mem_filter.mpr ⟨hmem, hPD⟩
    have hmem1 : applyDeltaReplace (Service.delta fresh stored) (f.uri, s)
        ∈ (stored.filter (applyDeltaKeep (Service.delta fresh stored))).map
          (applyDeltaReplace (Service.delta fresh stored)) :=
      List.mem_map_of_mem _ hmemf
    cases hfind : (Service.delta fresh stored).Update.find?
        (fun z => z.uri == f.uri) with
    | some u =>
      have hrep : applyDeltaReplace (Service.delta fresh stored) (f.uri, s)
          = (f.uri, u) := by
        unfold applyDeltaReplace
        rw [hfind]
      have humem : u ∈ (Service.delta fresh stored).Update :=
        List.mem_of_find?_eq_some hfind
      obtain ⟨f', hf'm, s', hlk', hlt', heq'⟩ := hUmem u humem
      have huri : u.uri = f'.uri := by rw [heq']; rfl
      have huri2 : u.uri = f.uri := by simpa using List.find?_some hfind
      have hff : f' = f := hinj f' hf'm f hfm (by rw [← huri, huri2])
      have hveff : u.effectiveDate = f.effectiveDate := by
        rw [heq', hff]
        rfl
      refine ⟨u, ?_, by rw [hveff]; exact lt_irrefl _⟩
      unfold applyDelta
      rw [lookupURI_append]
      have : lookupURI ((stored.filter
          (applyDeltaKeep (Service.delta fresh stored))).map
            (applyDeltaReplace (Service.delta fresh stored))) f.uri = some u :=
        lookupURI_eq_some_of_mem hnd1 (hrep ▸ hmem1)
      rw [this]
    | none =>
      have hrep : applyDeltaReplace (Service.delta fresh stored) (f.uri, s)
          = (f.uri, s) := by
        unfold applyDeltaReplace
        rw [hfind]
      have hnlt : ¬(s.effectiveDate < f.effectiveDate) := by
        intro hlt
        have hu0 : s.copyUpdateableData f ∈ (Service.delta fresh stored).Update := by
          rw [hU]
          apply List.mem_filterMap.mpr
          exact ⟨f, hfm, by rw [hlk]; simp [hlt]⟩
        have := List.find?_eq_none.mp hfind _ hu0
        simp [Zone.copyUpdateableData] at this
      refine ⟨s, ?_, hnlt⟩
      unfold applyDelta
      rw [lookupURI_append]
      have : lookupURI ((stored.filter
          (applyDeltaKeep (Service.delta fresh stored))).map
            (applyDeltaReplace (Service.delta fresh stored))) f.uri = some s :=
        lookupURI_eq_some_of_mem hnd1 (hrep ▸ hmem1)
      rw [this]
  | none =>
    have hfi : f ∈ (Service.delta fresh stored).Insert := by
      rw [hI]
      exact List.mem_filter.mpr ⟨hfm, by simp [hlk]⟩
    have hlk1 : lookupURI ((stored.filter
        (applyDeltaKeep (Service.delta fresh stored))).map
          (applyDeltaReplace (Service.delta fresh stored))) f.uri = none := by
      apply lookupURI_eq_none_iff.mpr
      intro q hq he
      obtain ⟨q0, hq0, hq0e⟩ := List.mem_map.mp hq
      have : q.1 = q0.1 := by rw [← hq0e, applyDeltaReplace_fst]
      have hkey : f.uri ∈ stored.map Prod.fst := by
        rw [← he, this]
        exact List.mem_map_of_mem Prod.fst (List.mem_of_mem_filter hq0)
      exact lookupURI_ne_none_of_key hkey hlk
    refine ⟨f, ?_, lt_irrefl _⟩
    unfold applyDelta
    rw [lookupURI_append, hlk1]
    exact lookupURI_eq_some_of_mem hnd2
      (List.mem_map_of_mem (fun z => (z.uri, z)) hfi)

theorem applyDelta_keys_fresh {fresh : List Zone} {stored : ZoneURIMap}
    (hf : (fresh.map Zone.uri).Nodup) (hs : stored.WF) :
    ∀ p ∈ applyDelta stored (Service.delta fresh stored),
      p.1 ∈ fresh.map Zone.uri := by
  have hI := delta_Insert_eq fresh stored hf hs
  intro p hp
  unfold applyDelta at hp
  rcases List.mem_append.mp hp with h1 | h2
  · obtain ⟨q, hq, hqe⟩ := List.mem_map.mp h1
    have hq1 : p.1 = q.1 := by rw [← hqe, applyDeltaReplace_fst]
    rw [hq1]
    by_contra hnm
    have hdel : q.2 ∈ (Service.delta fresh stored).Delete :=
      delta_Delete_mem_of hf hs (List.mem_of_mem_filter hq) hnm
    have hkeep := (List.mem_filter.mp hq).2
    unfold applyDeltaKeep at hkeep
    have := List.all_eq_true.mp hkeep q.2 hdel
    have huri : q.2.uri = q.1 := (hs.2 q (List.mem_of_mem_filter hq)).symm
    simp [huri] at this
  · obtain ⟨z, hz, hze⟩ := List.mem_map.mp h2
    have : p.1 = z.uri := by rw [← hze]
    rw [this]
    rw [hI] at hz
    exact List.mem_map_of_mem Zone.uri (List.mem_of_mem_filter hz)

/-- C8: applying the computed delta to the stored catalog (add the Insert
zones, replace matched entries with the Update zones, remove the Delete
zones) and recomputing the delta of the same fresh catalog against the
post-state yields empty Insert, Update and Delete sets. -/
theorem delta_apply_recompute_empty (fresh : List Zone) (stored : ZoneURIMap)
    (hf : (fresh.map Zone.uri).Nodup) (hs : stored.WF) :
    Service.delta fresh (applyDelta stored (Service.delta fresh stored))
      = { Insert := [], Update := [], Delete := [] } := by
  have hWF := applyDelta_WF hf hs
  have hlkp := applyDelta_lookup_fresh hf hs
  have hkeys := applyDelta_keys_fresh hf hs
  have hI' := delta_Insert_eq fresh (applyDelta stored (Service.delta fresh stored)) hf hWF
  have hU' := delta_Update_eq fresh (applyDelta stored (Service.delta fresh stored)) hf hWF
  have hD' := delta_Delete_eq fresh (applyDelta stored (Service.delta fresh stored)) hf hWF
  have eI : (Service.delta fresh
      (applyDelta stored (Service.delta fresh stored))).Insert = [] := by
    rw [hI']
    apply List.filter_eq_nil_iff.mpr
    intro a ha
    obtain ⟨v, hv, _⟩ := hlkp a ha
    simp [hv]
  have eU : (Service.delta fresh
      (applyDelta stored (Service.delta fresh stored))).Update = [] := by
    rw [hU']
    apply List.filterMap_eq_nil_iff.mpr
    intro a ha
    obtain ⟨v, hv, hnl⟩ := hlkp a ha
    simp [hv, hnl]
  have eD : (Service.delta fresh
      (applyDelta stored (Service.delta fresh stored))).Delete = [] := by
    rw [hD']
    have hfe : (applyDelta stored (Service.delta fresh stored)).filter
        (fun p => !((fresh.map Zone.uri).contains p.1)) = [] := by
      apply List.filter_eq_nil_iff.mpr
      intro p hp
      have := hkeys p hp
      simp_all
    rw [hfe]
    rfl
  cases hres : Service.delta fresh (applyDelta stored (Service.delta fresh stored)) with
  | mk I U D =>
    rw [hres] at eI eU eD
    simp only at eI eU eD
    rw [eI, eU, eD]

/-- Witness for C8 at the spec's worked example. -/
theorem delta_apply_recompute_empty_witness :
    ((freshEx.map Zone.uri).Nodup ∧ storedEx.WF)
  ∧ Service.delta freshEx (applyDelta storedEx (Service.delta freshEx storedEx))
      = { Insert := [], Update := [], Delete := [] } :=
  ⟨⟨by decide, by decide⟩,
   delta_apply_recompute_empty freshEx storedEx (by decide) (by decide)⟩

/-! ## Fetcher (src/unnamed/part_012, package state) -/

/-- Errors a fetch task can report: the context error observed before the
task ran, or a remote `GetZone` failure (carrying a status code). -/
inductive FetchErr
  | ctxCancelled
  | remote (code : Nat)
deriving DecidableEq, Repr

/-- The outcome the environment supplies for one fetch task: the context is
already cancelled when the task starts, or the remote `GetZone` call fails,
or it returns a zone detail. -/
inductive FetchOutcome
  | cancelled
  | failed (code : Nat)
  | fetched (detail : NWSZone)
deriving DecidableEq, Repr

/-- One entry reported on the Fetcher's channel pair: `Fetcher.fail` carries
the stub URI and the error, `Fetcher.finish` carries the merged zone. -/
inductive FetchCompletion
  | fail (uri : String) (e : FetchErr)
  | finish (z : Zone)
deriving DecidableEq, Repr

/-- `Fetcher.Fetch`: the task body submitted to the pool for stub `z`.
Returns the completion reported on the channels, and whether a remote
`GetZone` call was issued.  A task that observes a cancelled context fails
immediately with the context error and no remote call; a remote error fails
with that error; on success the fetched zone's updateable data is copied
onto the stub and the merged zone is reported. -/
def Fetcher.Fetch (z : Zone) (o : FetchOutcome) : FetchCompletion × Bool :=
  match o with
  | .cancelled => (.fail z.uri .ctxCancelled, false)
  | .failed code => (.fail z.uri (.remote code), true)
  | .fetched detail => (.finish (z.copyUpdateableData (zoneFromNWS detail)), true)

/-- Go map write `m[k] = v`: overwrites an existing key, else appends. -/
def mapWrite {α : Type} (m : List (String × α)) (k : String) (v : α) :
    List (String × α) :=
  if m.any (fun p => p.1 == k) then
    m.map (fun p => if p.1 == k then (k, v) else p)
  else
    m ++ [(k, v)]

/-- `state.FetchResult`. -/
structure FetchResult where
  Zones : List (String × Zone)
  Fails : List (String × FetchErr)
deriving DecidableEq, Repr

/-- `Fetcher.FetchEach`: one task per stub, then exactly one completion
drained per stub; successes are written to `Zones` keyed by the merged
zone's URI, failures to `Fails` keyed by the stub URI.  The channel
interleaving is unspecified in the source; this denotation fixes one
linearization (the final maps do not depend on it when the keys are
distinct).  The second component counts the remote calls issued. -/
def Fetcher.FetchEach : List Zone → (Zone → FetchOutcome) → FetchResult × Nat
  | [], _ => ({ Zones := [], Fails := [] }, 0)
  | z :: rest, o =>
    let r := Fetcher.FetchEach rest o
    match Fetcher.Fetch z (o z) with
    | (.fail uri e, b) =>
      ({ r.1 with Fails := mapWrite r.1.Fails uri e },
       r.2 + if b then 1 else 0)
    | (.finish zf, b) =>
      ({ r.1 with Zones := mapWrite r.1.Zones zf.uri zf },
       r.2 + if b then 1 else 0)

theorem mapWrite_not_mem {α : Type} (m : List (String × α)) (k : String)
    (v : α) (h : k ∉ m.map Prod.fst) : mapWrite m k v = m ++ [(k, v)] := by
  unfold mapWrite
  rw [if_neg]
  intro hany
  obtain ⟨p, hp, hpe⟩ := List.any_eq_true.mp hany
  apply h
  have he : p.1 = k := by simpa using hpe
  exact he ▸ List.mem_map_of_mem Prod.fst hp

theorem fetchEach_keys_perm (zones : List Zone) (o : Zone → FetchOutcome)
    (hnd : (zones.map Zone.uri).Nodup)
    (ho : ∀ z ∈ zones, ∀ d, o z = .fetched d → d.uri = z.uri) :
    ((Fetcher.FetchEach zones o).1.Zones.map Prod.fst
      ++ (Fetcher.FetchEach zones o).1.Fails.map Prod.fst).Perm
        (zones.map Zone.uri) := by
  induction zones with
  | nil => simp [Fetcher.FetchEach]
  | cons z rest ih =>
    have hnd2 : (∀ x ∈ rest, ¬x.uri = z.uri) ∧ (rest.map Zone.uri).Nodup := by
      simpa using hnd
    have ho' : ∀ x ∈ rest, ∀ d, o x = .fetched d → d.uri = x.uri :=
      fun x hx => ho x (List.mem_cons_of_mem z hx)
    have ihp := ih hnd2.2 ho'
    have hzfresh : z.uri ∉
        ((Fetcher.FetchEach rest o).1.Zones.map Prod.fst
          ++ (Fetcher.FetchEach rest o).1.Fails.map Prod.fst) := by
      intro hin
      have : z.uri ∈ rest.map Zone.uri := ihp.mem_iff.mp hin
      obtain ⟨x, hx, he⟩ := List.mem_map.mp this
      exact hnd2.1 x hx he
    have hz1 : z.uri ∉ (Fetcher.FetchEach rest o).1.Zones.map Prod.fst :=
      fun h => hzfresh (List.mem_append.mpr (Or.inl h))
    have hz2 : z.uri ∉ (Fetcher.FetchEach rest o).1.Fails.map Prod.fst :=
      fun h => hzfresh (List.mem_append.mpr (Or.inr h))
    cases hoz : o z with
    | cancelled =>
      simp only [Fetcher.FetchEach, Fetcher.Fetch, hoz]
      rw [mapWrite_not_mem _ _ _ hz2]
      simp only [List.map_append, List.map_cons, List.map_nil, List.append_nil]
      rw [← List.append_assoc]
      exact (List.perm_append_comm).trans (ihp.cons z.uri)
    | failed code =>
      simp only [Fetcher.FetchEach, Fetcher.Fetch, hoz]
      rw [mapWrite_not_mem _ _ _ hz2]
      simp only [List.map_append, List.map_cons, List.map_nil, List.append_nil]
      rw [← List.append_assoc]
      exact (List.perm_append_comm).trans (ihp.cons z.uri)
    | fetched d =>
      have hzu : (z.copyUpdateableData (zoneFromNWS d)).uri = z.uri := by
        have := ho z (List.mem_cons_self z rest) d hoz
        simpa [Zone.copyUpdateableData, zoneFromNWS] using this
      simp only [Fetcher.FetchEach, Fetcher.Fetch, hoz]
      rw [hzu, mapWrite_not_mem _ _ _ hz1]
      simp only [List.map_append, List.map_cons, List.map_nil, List.append_assoc,
        List.nil_append, List.cons_append, List.append_nil]
      exact (List.perm_middle).trans (ihp.cons z.uri)

theorem fetchEach_cancelled_in_fails (zones : List Zone)
    (o : Zone → FetchOutcome)
    (hnd : (zones.map Zone.uri).Nodup)
    (ho : ∀ z ∈ zones, ∀ d, o z = .fetched d → d.uri = z.uri) :
    ∀ z ∈ zones, o z = .cancelled →
      (z.uri, FetchErr.ctxCancelled) ∈ (Fetcher.FetchEach zones o).1.Fails := by
  induction zones with
  | nil => intro z hz; simp at hz
  | cons w rest ih =>
    have hnd2 : (∀ x ∈ rest, ¬x.uri = w.uri) ∧ (rest.map Zone.uri).Nodup := by
      simpa using hnd
    have ho' : ∀ x ∈ rest, ∀ d, o x = .fetched d → d.uri = x.uri :=
      fun x hx => ho x (List.mem_cons_of_mem w hx)
    have hperm := fetchEach_keys_perm rest o hnd2.2 ho'
    have hwfresh : w.uri ∉ (Fetcher.FetchEach rest o).1.Fails.map Prod.fst := by
      intro hin
      have : w.uri ∈ rest.map Zone.uri :=
        hperm.mem_iff.mp (List.mem_append.mpr (Or.inr hin))
      obtain ⟨x, hx, he⟩ := List.mem_map.mp this
      exact hnd2.1 x hx he
    have hw1 : w.uri ∉ (Fetcher.FetchEach rest o).1.Zones.map Prod.fst := by
      intro hin
      have : w.uri ∈ rest.map Zone.uri :=
        hperm.mem_iff.mp (List.mem_append.mpr (Or.inl hin))
      obtain ⟨x, hx, he⟩ := List.mem_map.mp this
      exact hnd2.1 x hx he
    intro z hz hcz
    rcases List.mem_cons.mp hz with he | hmem
    · subst he
      cases hoz : o z with
      | cancelled =>
        simp only [Fetcher.FetchEach, Fetcher.Fetch, hoz]
        rw [mapWrite_not_mem _ _ _ hwfresh]
        exact List.mem_append.mpr (Or.inr (List.mem_singleton.mpr rfl))
      | failed code => rw [hoz] at hcz; simp at hcz
      | fetched d => rw [hoz] at hcz; simp at hcz
    · have hrec := ih hnd2.2 ho' z hmem hcz
      cases how : o w with
      | cancelled =>
        simp only [Fetcher.FetchEach, Fetcher.Fetch, how]
        rw [mapWrite_not_mem _ _ _ hwfresh]
        exact List.mem_append.mpr (Or.inl hrec)
      | failed code =>
        simp only [Fetcher.FetchEach, Fetcher.Fetch, how]
        rw [mapWrite_not_mem _ _ _ hwfresh]
        exact List.mem_append.mpr (Or.inl hrec)
      | fetched d =>
        have hzu : (w.copyUpdateableData (zoneFromNWS d)).uri = w.uri := by
          have := ho w (List.mem_cons_self w rest) d how
          simpa [Zone.copyUpdateableData, zoneFromNWS] using this
        simp only [Fetcher.FetchEach, Fetcher.Fetch, how]
        exact hrec

theorem fetchEach_remote_calls (zones : List Zone) (o : Zone → FetchOutcome) :
    (Fetcher.FetchEach zones o).2
      = (zones.filter (fun z => o z != FetchOutcome.cancelled)).length := by
  induction zones with
  | nil => rfl
  | cons z rest ih =>
    cases hoz : o z with
    | cancelled =>
      simp only [Fetcher.FetchEach, Fetcher.Fetch, hoz, List.filter_cons]
      simp [hoz, ih]
    | failed code =>
      simp only [Fetcher.FetchEach, Fetcher.Fetch, hoz, List.filter_cons]
      simp [hoz, ih]
    | fetched d =>
      simp only [Fetcher.FetchEach, Fetcher.Fetch, hoz, List.filter_cons]
      simp [hoz, ih]

/-- Stub and remote detail for the C5 counterexample: the detail carries a
different URI than the stub. -/
def stubC5 : Zone :=
  { id := 3, uri := "a", code := "c1", ztype := "county", name := "old",
    effectiveDate := 0, state := "IL", createdAt := 5, updatedAt := 6,
    geometry := [] }

def detailC5 : NWSZone :=
  { uri := "b", code := "c2", ztype := "forecast", name := "new",
    effectiveDate := 9, state := "WI", geometry := [] }

/-- C5 counterexample: a successful fetch whose detail reports URI `"b"` for
a stub with URI `"a"` hands the merged zone the fetched URI — the stub's
identifying fields are NOT preserved (`CopyUpdateableData` copies URI, Code
and Type too). -/
theorem fetch_does_not_preserve_stub_identity :
    (Fetcher.Fetch stubC5 (.fetched detailC5)).1
      = .finish (stubC5.copyUpdateableData (zoneFromNWS detailC5))
  ∧ (stubC5.copyUpdateableData (zoneFromNWS detailC5)).uri = "b"
  ∧ (stubC5.copyUpdateableData (zoneFromNWS detailC5)).code = "c2"
  ∧ (stubC5.copyUpdateableData (zoneFromNWS detailC5)).ztype = "forecast"
  ∧ ¬((stubC5.copyUpdateableData (zoneFromNWS detailC5)).uri = stubC5.uri) := by
  refine ⟨rfl, rfl, rfl, rfl, ?_⟩
  decide

/-- C5 (amended): a successful fetch merges the fetched Name, EffectiveDate,
State and Geometry onto the stub, but `CopyUpdateableData` also copies the
fetched URI, Code and Type; only the stub's ID, CreatedAt and UpdatedAt are
preserved, so the identifying fields keep the stub's original values exactly
when the fetched detail reports the same URI, Code and Type. -/
theorem fetch_merges_all_updateable_fields (stub : Zone) (detail : NWSZone) :
    (Fetcher.Fetch stub (.fetched detail)).1
      = .finish (stub.copyUpdateableData (zoneFromNWS detail))
  ∧ (stub.copyUpdateableData (zoneFromNWS detail)).name = detail.name
  ∧ (stub.copyUpdateableData (zoneFromNWS detail)).effectiveDate
      = detail.effectiveDate
  ∧ (stub.copyUpdateableData (zoneFromNWS detail)).state = detail.state
  ∧ (stub.copyUpdateableData (zoneFromNWS detail)).geometry
      = NewGeometry detail.geometry
  ∧ (stub.copyUpdateableData (zoneFromNWS detail)).uri = detail.uri
  ∧ (stub.copyUpdateableData (zoneFromNWS detail)).code = detail.code
  ∧ (stub.copyUpdateableData (zoneFromNWS detail)).ztype = detail.ztype
  ∧ (stub.copyUpdateableData (zoneFromNWS detail)).id = stub.id
  ∧ (stub.copyUpdateableData (zoneFromNWS detail)).createdAt = stub.createdAt
  ∧ (stub.copyUpdateableData (zoneFromNWS detail)).updatedAt = stub.updatedAt :=
  ⟨rfl, rfl, rfl, rfl, rfl, rfl, rfl, rfl, rfl, rfl, rfl⟩

/-- Stub and detail for the C6 counterexample: two stubs sharing one URI. -/
def stubC6 : Zone :=
  { id := 0, uri := "u1", code := "c", ztype := "county", name := "",
    effectiveDate := 0, state := "IL", createdAt := 0, updatedAt := 0,
    geometry := [] }

def detailC6 : NWSZone :=
  { uri := "u1", code := "c", ztype := "county", name := "N",
    effectiveDate := 1, state := "IL", geometry := [] }

/-- C6 counterexample: on a list of N = 2 stubs that share a URI,
`FetchEach` collects 2 completions but the result maps contain a single
entry, not N — the claim fails without a uniqueness assumption on the stub
URIs. -/
theorem fetchEach_duplicate_uri_breaks_count :
    ((Fetcher.FetchEach [stubC6, stubC6]
        (fun _ => .fetched detailC6)).1.Zones.length
      + (Fetcher.FetchEach [stubC6, stubC6]
          (fun _ => .fetched detailC6)).1.Fails.length = 1)
  ∧ [stubC6, stubC6].length = 2 := by
  constructor
  · rfl
  · rfl

/-- C6 (amended): for stubs unique by URI whose successful fetches report
the stub's own URI, `FetchEach` drains exactly one completion per stub and
returns exactly N entries split across Zones and Fails, each stub URI in
exactly one of the two maps; a stub whose task observes a cancelled context
is reported in Fails with the context error, and no remote call is issued
for it (the remote-call count equals the number of non-cancelled tasks). -/
theorem fetchEach_exactly_n_split (zones : List Zone) (o : Zone → FetchOutcome)
    (hnd : (zones.map Zone.uri).Nodup)
    (ho : ∀ z ∈ zones, ∀ d, o z = .fetched d → d.uri = z.uri) :
    ((Fetcher.FetchEach zones o).1.Zones.length
      + (Fetcher.FetchEach zones o).1.Fails.length = zones.length)
  ∧ (∀ z ∈ zones,
      (z.uri ∈ (Fetcher.FetchEach zones o).1.Zones.map Prod.fst
          ∧ z.uri ∉ (Fetcher.FetchEach zones o).1.Fails.map Prod.fst)
      ∨ (z.uri ∉ (Fetcher.FetchEach zones o).1.Zones.map Prod.fst
          ∧ z.uri ∈ (Fetcher.FetchEach zones o).1.Fails.map Prod.fst))
  ∧ (∀ z ∈ zones, o z = .cancelled →
      (z.uri, FetchErr.ctxCancelled) ∈ (Fetcher.FetchEach zones o).1.Fails)
  ∧ (Fetcher.FetchEach zones o).2
      = (zones.filter (fun z => o z != FetchOutcome.cancelled)).length := by
  have hperm := fetchEach_keys_perm zones o hnd ho
  refine ⟨?_, ?_, fetchEach_cancelled_in_fails zones o hnd ho,
    fetchEach_remote_calls zones o⟩
  · have := hperm.length_eq
    simpa using this
  · intro z hz
    have hmem : z.uri ∈
        ((Fetcher.FetchEach zones o).1.Zones.map Prod.fst
          ++ (Fetcher.FetchEach zones o).1.Fails.map Prod.fst) :=
      hperm.mem_iff.mpr (List.mem_map_of_mem Zone.uri hz)
    have hndk : ((Fetcher.FetchEach zones o).1.Zones.map Prod.fst
        ++ (Fetcher.FetchEach zones o).1.Fails.map Prod.fst).Nodup :=
      hperm.nodup_iff.mpr hnd
    have hdisj := List.disjoint_of_nodup_append hndk
    rcases List.mem_append.mp hmem with h1 | h2
    · exact Or.inl ⟨h1, fun h2 => hdisj h1 h2⟩
    · exact Or.inr ⟨fun h1 => hdisj h1 h2, h2⟩

/-- Concrete run for the C6 witness: two distinct URIs, one success, one
cancellation. -/
def stubC6b : Zone :=
  { id := 0, uri := "u2", code := "c2", ztype := "county", name := "",
    effectiveDate := 0, state := "IL", createdAt := 0, updatedAt := 0,
    geometry := [] }

def outcomeC6 (z : Zone) : FetchOutcome :=
  if z.uri = "u1" then .fetched detailC6 else .cancelled

theorem outcomeC6_fetched_uri :
    ∀ z ∈ [stubC6, stubC6b], ∀ d, outcomeC6 z = .fetched d → d.uri = z.uri := by
  intro z hz d hd
  rcases List.mem_cons.mp hz with rfl | hz2
  · have h1 : outcomeC6 stubC6 = .fetched detailC6 := by decide
    rw [h1] at hd
    cases hd
    rfl
  · rcases List.mem_cons.mp hz2 with rfl | hz3
    · have h1 : outcomeC6 stubC6b = .cancelled := by decide
      rw [h1] at hd
      cases hd
    · simp at hz3

/-- Witness for C6 (amended) on a success plus a cancellation. -/
theorem fetchEach_exactly_n_split_witness :
    (([stubC6, stubC6b].map Zone.uri).Nodup
      ∧ ∀ z ∈ [stubC6, stubC6b], ∀ d, outcomeC6 z = .fetched d → d.uri = z.uri)
  ∧ (((Fetcher.FetchEach [stubC6, stubC6b] outcomeC6).1.Zones.length
      + (Fetcher.FetchEach [stubC6, stubC6b] outcomeC6).1.Fails.length
        = [stubC6, stubC6b].length)
  ∧ (∀ z ∈ [stubC6, stubC6b],
      (z.uri ∈ (Fetcher.FetchEach [stubC6, stubC6b] outcomeC6).1.Zones.map Prod.fst
          ∧ z.uri ∉ (Fetcher.FetchEach [stubC6, stubC6b] outcomeC6).1.Fails.map Prod.fst)
      ∨ (z.uri ∉ (Fetcher.FetchEach [stubC6, stubC6b] outcomeC6).1.Zones.map Prod.fst
          ∧ z.uri ∈ (Fetcher.FetchEach [stubC6, stubC6b] outcomeC6).1.Fails.map Prod.fst))
  ∧ (∀ z ∈ [stubC6, stubC6b], outcomeC6 z = .cancelled →
      (z.uri, FetchErr.ctxCancelled)
        ∈ (Fetcher.FetchEach [stubC6, stubC6b] outcomeC6).1.Fails)
  ∧ (Fetcher.FetchEach [stubC6, stubC6b] outcomeC6).2
      = ([stubC6, stubC6b].filter
          (fun z => outcomeC6 z != FetchOutcome.cancelled)).length) :=
  ⟨⟨by decide, outcomeC6_fetched_uri⟩,
   fetchEach_exactly_n_split [stubC6, stubC6b] outcomeC6 (by decide)
     outcomeC6_fetched_uri⟩

/-! ## Relational store (migrations/000001, internal/state, internal/alert)

Rows carry the columns the reconciliation logic branches on; timestamp and
purely descriptive text columns (name strings on alerts, created_at,
updated_at, area_desc, onset, category, severity, certainty, urgency, event,
headline, description, instruction, response) are elided — no embedded
operation reads or branches on them. -/

/-- A `state_zones` row. -/
structure ZoneRow where
  id : Nat
  uri : String
  code : String
  ztype : String
  name : String
  effectiveDate : Int
  state : String
deriving DecidableEq, Repr

/-- A `state_zone_perimeters` row. -/
structure PerimeterRow where
  id : Nat
  szID : Nat
  boundary : List (Int × Int)
deriving DecidableEq, Repr

/-- A `state_zone_holes` row (its serial id is scanned but never used). -/
structure HoleRow where
  zpID : Nat
  boundary : List (Int × Int)
deriving DecidableEq, Repr

/-- An `alerts` row. -/
structure AlertRow where
  id : String
  expires : Int
  ends : Option Int
  messageType : String
  boundary : Option (List (Int × Int))
deriving DecidableEq, Repr

/-- The relational store: the six tables of the schema plus the serial-id
counters. -/
structure DB where
  zones : List ZoneRow
  perimeters : List PerimeterRow
  holes : List HoleRow
  alerts : List AlertRow
  alertZones : List (String × Nat)
  lonelyAlerts : List (String × String)
  nextZoneID : Nat
  nextPerimeterID : Nat
deriving DecidableEq, Repr

/-- One SQL write statement as issued by the embedded operations; the fault
oracle decides per statement whether the driver fails it. -/
inductive DBWrite
  | zoneRow (r : ZoneRow)
  | zoneRowUpdate (r : ZoneRow)
  | perimeterRow (r : PerimeterRow)
  | holeRow (r : HoleRow)
  | geometryDelete (zoneID : Nat)
  | zoneDelete (zoneID : Nat)
  | alertRow (a : AlertRow)
  | referenceDelete (id : String)
  | alertZoneRow (alertID : String) (zoneID : Nat)
  | lonelyAlertRow (alertID : String) (zoneURI : String)
  | lonelyAlertDelete (alertID : String) (zoneURI : String)
  | endedDelete (t : Int)
  | expiredDelete (t : Int)
deriving DecidableEq, Repr

/-- Fault oracle: `true` means the statement fails. -/
def Faults := DBWrite → Bool

/-- A database error, identifying the failed statement. -/
inductive Err
  | sqlFault (w : DBWrite)
deriving DecidableEq, Repr

/-- `Store.tx` (state/store.go:18, alert/store.go:21): run the transaction
body on the current state; commit the produced state on success, restore the
original state (rollback) on error. -/
def Store.tx (db : DB) (txFunc : DB → Except Err DB) : DB × Option Err :=
  match txFunc db with
  | .ok db2 => (db2, none)
  | .error e => (db, some e)

/-- Hole loop of `Perimeter.Insert` (src/unnamed/part_013:60): on a hole
fault the source does `return nil`, so the loop stops and the enclosing
insert still reports success. -/
def insertHoles (f : Faults) (pid : Nat) : List Hole → DB → DB
  | [], db => db
  | h :: rest, db =>
    let row : HoleRow := { zpID := pid, boundary := h.points }
    if f (.holeRow row) then db
    else insertHoles f pid rest { db with holes := db.holes ++ [row] }

/-- `Perimeter.Insert` (src/unnamed/part_013:47): insert the perimeter row
(RETURNING id), then the holes via `insertHoles`. -/
def Perimeter.Insert (f : Faults) (zoneID : Nat) (p : Perimeter) (db : DB) :
    Except Err DB :=
  let row : PerimeterRow :=
    { id := db.nextPerimeterID, szID := zoneID, boundary := p.points }
  if f (.perimeterRow row) then .error (.sqlFault (.perimeterRow row))
  else
    .ok (insertHoles f row.id p.holes
      { db with perimeters := db.perimeters ++ [row],
                nextPerimeterID := db.nextPerimeterID + 1 })

/-- Perimeter loop shared by `Zone.Insert` and `Zone.Update`. -/
def insertPerimeters (f : Faults) (zoneID : Nat) :
    List Perimeter → DB → Except Err DB
  | [], db => .ok db
  | p :: rest, db =>
    match Perimeter.Insert f zoneID p db with
    | .error e => .error e
    | .ok db1 => insertPerimeters f zoneID rest db1

/-- The `state_zones` row written for an in-memory zone at a given id. -/
def zoneRowOf (z : Zone) (id : Nat) : ZoneRow :=
  { id := id, uri := z.uri, code := z.code, ztype := z.ztype, name := z.name,
    effectiveDate := z.effectiveDate, state := z.state }

/-- `Zone.Insert` (state/zone.go:134): insert the zone row (RETURNING the
assigned serial id), then each perimeter with its holes.  Returns the
assigned id. -/
def Zone.Insert (f : Faults) (z : Zone) (db : DB) : Except Err (DB × Nat) :=
  let row := zoneRowOf z db.nextZoneID
  if f (.zoneRow row) then .error (.sqlFault (.zoneRow row))
  else
    match insertPerimeters f row.id z.geometry
        { db with zones := db.zones ++ [row],
                  nextZoneID := db.nextZoneID + 1 } with
    | .error e => .error e
    | .ok db2 => .ok (db2, row.id)

/-- `Geometry.Delete` (src/unnamed/part_013:15): delete the zone's perimeter
rows; their holes cascade. -/
def Geometry.Delete (f : Faults) (zoneID : Nat) (db : DB) : Except Err DB :=
  if f (.geometryDelete zoneID) then .error (.sqlFault (.geometryDelete zoneID))
  else
    let gone := db.perimeters.filter (fun pr => pr.szID == zoneID)
    .ok { db with
      perimeters := db.perimeters.filter (fun pr => pr.szID != zoneID),
      holes := db.holes.filter (fun h => !(gone.any (fun pr => pr.id == h.zpID))) }

/-- `Zone.Update` (state/zone.go:178): update the row at the existing id,
delete the current geometry, insert the new geometry. -/
def Zone.Update (f : Faults) (z : Zone) (db : DB) : Except Err DB :=
  let row := zoneRowOf z z.id
  if f (.zoneRowUpdate row) then .error (.sqlFault (.zoneRowUpdate row))
  else
    match Geometry.Delete f z.id
        { db with zones := db.zones.map (fun r => if r.id == z.id then row else r) } with
    | .error e => .error e
    | .ok db2 => insertPerimeters f z.id z.geometry db2

/-- `Zone.Delete` (state/zone.go:224): delete the zone row by id; geometry
and alert-zone associations cascade (schema FKs). -/
def Zone.Delete (f : Faults) (zoneID : Nat) (db : DB) : Except Err DB :=
  if f (.zoneDelete zoneID) then .error (.sqlFault (.zoneDelete zoneID))
  else
    let gone := db.perimeters.filter (fun pr => pr.szID == zoneID)
    .ok { db with
      zones := db.zones.filter (fun r => r.id != zoneID),
      perimeters := db.perimeters.filter (fun pr => pr.szID != zoneID),
      holes := db.holes.filter (fun h => !(gone.any (fun pr => pr.id == h.zpID))),
      alertZones := db.alertZones.filter (fun az => az.2 != zoneID) }

/-- `LonelyAlertCollection.Select` (state/alert.go:66): all lonely alerts
recorded for a zone URI. -/
def LonelyAlertCollection.Select (db : DB) (zoneURI : String) :
    List (String × String) :=
  db.lonelyAlerts.filter (fun p => p.2 == zoneURI)

/-- Promotion loop of `Store.InsertZoneTx` (state/store.go:88): for each
selected lonely alert, insert an AlertZone row carrying the new zone id,
then delete the lonely row. -/
def promoteLonely (f : Faults) (zoneID : Nat) :
    List (String × String) → DB → Except Err DB
  | [], db => .ok db
  | l :: rest, db =>
    if f (.alertZoneRow l.1 zoneID) then
      .error (.sqlFault (.alertZoneRow l.1 zoneID))
    else
      if f (.lonelyAlertDelete l.1 l.2) then
        .error (.sqlFault (.lonelyAlertDelete l.1 l.2))
      else
        promoteLonely f zoneID rest
          { db with
            alertZones := db.alertZones ++ [(l.1, zoneID)],
            lonelyAlerts := db.lonelyAlerts.filter
              (fun p => !(p.1 == l.1 && p.2 == l.2)) }

/-- `Store.InsertZoneTx` (state/store.go:77): one transaction inserting the
zone with its geometry and promoting every lonely alert recorded for its
URI. -/
def Store.InsertZoneTx (f : Faults) (z : Zone) (db : DB) : DB × Option Err :=
  Store.tx db (fun db0 =>
    match Zone.Insert f z db0 with
    | .error e => .error e
    | .ok (db1, zid) =>
      promoteLonely f zid (LonelyAlertCollection.Select db1 z.uri) db1)

/-- `Store.UpdateZoneTx` (state/store.go:114). -/
def Store.UpdateZoneTx (f : Faults) (z : Zone) (db : DB) : DB × Option Err :=
  Store.tx db (fun db0 => Zone.Update f z db0)

/-- `Store.DeleteZone` (state/store.go:123): a single non-transactional
delete statement. -/
def Store.DeleteZone (f : Faults) (zoneID : Nat) (db : DB) : DB × Option Err :=
  match Zone.Delete f zoneID db with
  | .ok db1 => (db1, none)
  | .error e => (db, some e)

/-- `alert.Resource` (admin.go:329): an alert with its references and its
affected-zone URIs (`alert.Zone` values carry only the URI before their
`Select`). -/
structure Resource where
  Alert : AlertRow
  References : List String
  Zones : List String
deriving DecidableEq, Repr

/-- `Alert.Insert` (admin.go:462): insert the alert row. -/
def Alert.Insert (f : Faults) (a : AlertRow) (db : DB) : Except Err DB :=
  if f (.alertRow a) then .error (.sqlFault (.alertRow a))
  else .ok { db with alerts := db.alerts ++ [a] }

/-- `Reference.Delete` (admin.go:606): `DELETE FROM alerts WHERE id = $1`;
the alert's AlertZone and LonelyAlert rows cascade (schema FKs). -/
def Reference.Delete (f : Faults) (r : String) (db : DB) : Except Err DB :=
  if f (.referenceDelete r) then .error (.sqlFault (.referenceDelete r))
  else .ok { db with
    alerts := db.alerts.filter (fun a => a.id != r),
    alertZones := db.alertZones.filter (fun az => az.1 != r),
    lonelyAlerts := db.lonelyAlerts.filter (fun p => p.1 != r) }

/-- `ReferenceCollection.Delete` (admin.go:618): delete each reference,
stopping at the first error. -/
def ReferenceCollection.Delete (f : Faults) :
    List String → DB → Except Err DB
  | [], db => .ok db
  | r :: rest, db =>
    match Reference.Delete f r db with
    | .error e => .error e
    | .ok db1 => ReferenceCollection.Delete f rest db1

/-- `alert.Zone.Select` (alert/zone.go:25): `SELECT id FROM state_zones
WHERE uri = $1`; `none` stands for `sql.ErrNoRows` (the Go zone keeps
`ID = 0`). -/
def selectZoneID (zones : List ZoneRow) (uri : String) : Option Nat :=
  match zones.find? (fun r => r.uri == uri) with
  | some r => some r.id
  | none => none

/-- Association loop of `Store.InsertAlertTx` (alert/store.go:98): an
AlertZone row when the zone is persisted, a LonelyAlert row otherwise. -/
def insertAssociations (f : Faults) (alertID : String) :
    List String → DB → Except Err DB
  | [], db => .ok db
  | uri :: rest, db =>
    match selectZoneID db.zones uri with
    | some zid =>
      if f (.alertZoneRow alertID zid) then
        .error (.sqlFault (.alertZoneRow alertID zid))
      else
        insertAssociations f alertID rest
          { db with alertZones := db.alertZones ++ [(alertID, zid)] }
    | none =>
      if f (.lonelyAlertRow alertID uri) then
        .error (.sqlFault (.lonelyAlertRow alertID uri))
      else
        insertAssociations f alertID rest
          { db with lonelyAlerts := db.lonelyAlerts ++ [(alertID, uri)] }

/-- `Store.InsertAlertTx` (alert/store.go:87): one transaction inserting the
alert row, deleting every referenced alert, and inserting all of the alert's
zone associations. -/
def Store.InsertAlertTx (f : Faults) (r : Resource) (db : DB) :
    DB × Option Err :=
  Store.tx db (fun db0 =>
    match Alert.Insert f r.Alert db0 with
    | .error e => .error e
    | .ok db1 =>
      match ReferenceCollection.Delete f r.References db1 with
      | .error e => .error e
      | .ok db2 => insertAssociations f r.Alert.id r.Zones db2)

/-- Rows matched by `DELETE FROM alerts WHERE ends < $1` (a NULL `ends`
compares to no row). -/
def endedBefore (a : AlertRow) (t : Int) : Bool :=
  match a.ends with
  | some e => e < t
  | none => false

/-- Rows matched by `DELETE FROM alerts WHERE ends IS NULL AND
expires < $1`. -/
def expiredBefore (a : AlertRow) (t : Int) : Bool :=
  a.ends == none && a.expires < t

/-- Delete the alert rows matching `p`; their association rows cascade. -/
def deleteAlertRows (db : DB) (p : AlertRow → Bool) : DB :=
  let gone := db.alerts.filter p
  { db with
    alerts := db.alerts.filter (fun a => !(p a)),
    alertZones := db.alertZones.filter
      (fun az => !(gone.any (fun a => a.id == az.1))),
    lonelyAlerts := db.lonelyAlerts.filter
      (fun l => !(gone.any (fun a => a.id == l.1))) }

/-- `Store.DeleteEndedAlerts` / `AlertCollection.DeleteEnded`
(alert/store.go:123, admin.go:581); returns the rows-affected count. -/
def Store.DeleteEndedAlerts (f : Faults) (t : Int) (db : DB) :
    Except Err (DB × Nat) :=
  if f (.endedDelete t) then .error (.sqlFault (.endedDelete t))
  else .ok (deleteAlertRows db (fun a => endedBefore a t),
    (db.alerts.filter (fun a => endedBefore a t)).length)

/-- `Store.DeleteExpiredAlerts` / `AlertCollection.DeleteExpired`
(alert/store.go:141, admin.go:587). -/
def Store.DeleteExpiredAlerts (f : Faults) (t : Int) (db : DB) :
    Except Err (DB × Nat) :=
  if f (.expiredDelete t) then .error (.sqlFault (.expiredDelete t))
  else .ok (deleteAlertRows db (fun a => expiredBefore a t),
    (db.alerts.filter (fun a => expiredBefore a t)).length)

/-- `Service.CleanUp` (alert/service.go:159) with cutoff `t` (the source
takes `time.Now().UTC()`): the ended sweep, then the expired sweep; a
failure of the second leaves the first applied and returns its count with
the error. -/
def Service.CleanUp (f : Faults) (t : Int) (db : DB) : DB × Nat × Option Err :=
  match Store.DeleteEndedAlerts f t db with
  | .error e => (db, 0, some e)
  | .ok (db1, n1) =>
    match Store.DeleteExpiredAlerts f t db1 with
    | .error e => (db1, n1, some e)
    | .ok (db2, n2) => (db2, n1 + n2, none)

/-- `AlertCollection.Select` (admin.go:557): alerts with an explicit
boundary containing the point, excluding MessageType "Cancel"; the PostGIS
`@>` containment test is abstracted as `cont`. -/
def AlertCollection.Select (cont : List (Int × Int) → Point → Bool)
    (db : DB) (pt : Point) : List AlertRow :=
  db.alerts.filter (fun a =>
    a.messageType != "Cancel" &&
    (match a.boundary with
     | some b => cont b pt
     | none => false))

/-- `AlertCollection.SelectPointless` (admin.go:526): the join of alerts,
alert_zones and state_zone_perimeters on matching ids, keeping rows whose
perimeter contains the point, excluding MessageType "Cancel". -/
def AlertCollection.SelectPointless (cont : List (Int × Int) → Point → Bool)
    (db : DB) (pt : Point) : List AlertRow :=
  db.alerts.flatMap (fun a =>
    db.alertZones.flatMap (fun az =>
      db.perimeters.filterMap (fun pr =>
        if pr.szID == az.2 && az.1 == a.id &&
            a.messageType != "Cancel" && cont pr.boundary pt
        then some a else none)))

/-- `Store.SelectAlertsContains` (alert/store.go:51): both queries,
appended into one collection. -/
def Store.SelectAlertsContains (cont : List (Int × Int) → Point → Bool)
    (db : DB) (pt : Point) : List AlertRow :=
  AlertCollection.Select cont db pt ++ AlertCollection.SelectPointless cont db pt

/-! ### Concrete store states and the C4 bug exhibit -/

def emptyDB : DB :=
  { zones := [], perimeters := [], holes := [], alerts := [],
    alertZones := [], lonelyAlerts := [], nextZoneID := 1,
    nextPerimeterID := 1 }

def zoneC4 : Zone :=
  { id := 0, uri := "z4", code := "c4", ztype := "county", name := "Z4",
    effectiveDate := 1, state := "IL", createdAt := 0, updatedAt := 0,
    geometry := [{ id := 0, zoneID := 0,
                   points := [(0, 0), (0, 2), (2, 0)],
                   holes := [{ id := 0, perimieterID := 0,
                               points := [(1, 1), (1, 2), (2, 1)] }] }] }

def faultsC4 : Faults := fun w =>
  match w with
  | .holeRow _ => true
  | _ => false

/-- C4 (bug exhibit): for a zone whose single perimeter carries one hole and
a driver failing exactly the hole insert, `InsertZoneTx` reports success and
commits the zone row and perimeter row with NO hole row: `Perimeter.Insert`
returns nil instead of the error on a failed hole insert
(src/unnamed/part_013:63-65), so the transaction commits partial geometry
instead of rolling back — contradicting the function's own documentation
("If any operations fail the database will roll back"). -/
theorem insertZoneTx_commits_on_hole_fault :
    (Store.InsertZoneTx faultsC4 zoneC4 emptyDB).2 = none
  ∧ (Store.InsertZoneTx faultsC4 zoneC4 emptyDB).1.holes = []
  ∧ (Store.InsertZoneTx faultsC4 zoneC4 emptyDB).1.perimeters
      = [{ id := 1, szID := 1, boundary := [(0, 0), (0, 2), (2, 0)] }]
  ∧ (Store.InsertZoneTx faultsC4 zoneC4 emptyDB).1.zones = [zoneRowOf zoneC4 1]
  ∧ zoneC4.geometry.map (fun p => p.holes.length) = [1] := by decide

/-! ### Frame lemmas for the store operations -/

theorem insertHoles_frame (f : Faults) (pid : Nat) :
    ∀ (hs : List Hole) (db : DB),
      (insertHoles f pid hs db).zones = db.zones ∧
      (insertHoles f pid hs db).alerts = db.alerts ∧
      (insertHoles f pid hs db).alertZones = db.alertZones ∧
      (insertHoles f pid hs db).lonelyAlerts = db.lonelyAlerts ∧
      (insertHoles f pid hs db).nextZoneID = db.nextZoneID := by
  intro hs
  induction hs with
  | nil => intro db; exact ⟨rfl, rfl, rfl, rfl, rfl⟩
  | cons h rest ih =>
    intro db
    simp only [insertHoles]
    split
    · exact ⟨rfl, rfl, rfl, rfl, rfl⟩
    · exact ih _

theorem perimeterInsert_frame {f : Faults} {zid : Nat} {p : Perimeter}
    {db db' : DB} (h : Perimeter.Insert f zid p db = .ok db') :
    db'.zones = db.zones ∧ db'.alerts = db.alerts ∧
    db'.alertZones = db.alertZones ∧ db'.lonelyAlerts = db.lonelyAlerts ∧
    db'.nextZoneID = db.nextZoneID := by
  simp only [Perimeter.Insert] at h
  split at h
  · cases h
  · cases h
    exact insertHoles_frame f db.nextPerimeterID p.holes _

theorem insertPerimeters_frame {f : Faults} {zid : Nat} :
    ∀ {ps : List Perimeter} {db db' : DB},
      insertPerimeters f zid ps db = .ok db' →
      db'.zones = db.zones ∧ db'.alerts = db.alerts ∧
      db'.alertZones = db.alertZones ∧ db'.lonelyAlerts = db.lonelyAlerts ∧
      db'.nextZoneID = db.nextZoneID := by
  intro ps
  induction ps with
  | nil =>
    intro db db' h
    cases h
    exact ⟨rfl, rfl, rfl, rfl, rfl⟩
  | cons p rest ih =>
    intro db db' h
    unfold insertPerimeters at h
    cases hp : Perimeter.Insert f zid p db with
    | error e => rw [hp] at h; cases h
    | ok db1 =>
      rw [hp] at h
      have h1 := perimeterInsert_frame hp
      have h2 := ih h
      exact ⟨h2.1.trans h1.1, h2.2.1.trans h1.2.1, h2.2.2.1.trans h1.2.2.1,
        h2.2.2.2.1.trans h1.2.2.2.1, h2.2.2.2.2.trans h1.2.2.2.2⟩

theorem zoneInsert_ok {f : Faults} {z : Zone} {db db' : DB} {zid : Nat}
    (h : Zone.Insert f z db = .ok (db', zid)) :
    zid = db.nextZoneID ∧
    db'.zones = db.zones ++ [zoneRowOf z db.nextZoneID] ∧
    db'.alerts = db.alerts ∧
    db'.alertZones = db.alertZones ∧
    db'.lonelyAlerts = db.lonelyAlerts ∧
    db'.nextZoneID = db.nextZoneID + 1 := by
  simp only [Zone.Insert] at h
  split at h
  · cases h
  · split at h
    · cases h
    · next db2 hp =>
      injection h with h
      injection h with h1 h2
      subst h1
      subst h2
      have hfr := insertPerimeters_frame hp
      exact ⟨rfl, hfr.1, hfr.2.1, hfr.2.2.1, hfr.2.2.2.1, hfr.2.2.2.2⟩

theorem geometryDelete_frame {f : Faults} {zid : Nat} {db db' : DB}
    (h : Geometry.Delete f zid db = .ok db') :
    db'.zones = db.zones ∧ db'.alerts = db.alerts ∧
    db'.alertZones = db.alertZones ∧ db'.lonelyAlerts = db.lonelyAlerts ∧
    db'.nextZoneID = db.nextZoneID := by
  simp only [Geometry.Delete] at h
  split at h
  · cases h
  · cases h
    exact ⟨rfl, rfl, rfl, rfl, rfl⟩

theorem zoneUpdate_ok {f : Faults} {z : Zone} {db db' : DB}
    (h : Zone.Update f z db = .ok db') :
    db'.zones = db.zones.map
      (fun r => if r.id == z.id then zoneRowOf z z.id else r) ∧
    db'.alerts = db.alerts ∧
    db'.alertZones = db.alertZones ∧
    db'.lonelyAlerts = db.lonelyAlerts ∧
    db'.nextZoneID = db.nextZoneID := by
  simp only [Zone.Update] at h
  split at h
  · cases h
  · split at h
    · cases h
    · next db2 hg =>
      have h1 := geometryDelete_frame hg
      have h2 := insertPerimeters_frame h
      refine ⟨?_, h2.2.1.trans (h1.2.1.trans rfl), h2.2.2.1.trans h1.2.2.1,
        h2.2.2.2.1.trans h1.2.2.2.1, h2.2.2.2.2.trans h1.2.2.2.2⟩
      exact h2.1.trans h1.1

theorem zoneDelete_ok {f : Faults} {zid : Nat} {db db' : DB}
    (h : Zone.Delete f zid db = .ok db') :
    db'.zones = db.zones.filter (fun r => r.id != zid) ∧
    db'.alerts = db.alerts ∧
    db'.alertZones = db.alertZones.filter (fun az => az.2 != zid) ∧
    db'.lonelyAlerts = db.lonelyAlerts ∧
    db'.nextZoneID = db.nextZoneID := by
  simp only [Zone.Delete] at h
  split at h
  · cases h
  · cases h
    exact ⟨rfl, rfl, rfl, rfl, rfl⟩

theorem promoteLonely_ok {f : Faults} {zid : Nat} :
    ∀ (ls : List (String × String)) (db db' : DB),
      promoteLonely f zid ls db = .ok db' →
      db'.zones = db.zones ∧ db'.alerts = db.alerts ∧
      db'.nextZoneID = db.nextZoneID ∧
      db'.alertZones = db.alertZones ++ ls.map (fun l => (l.1, zid)) ∧
      db'.lonelyAlerts = db.lonelyAlerts.filter
        (fun p => !(ls.any (fun l => p.1 == l.1 && p.2 == l.2))) := by
  intro ls
  induction ls with
  | nil =>
    intro db db' h
    cases h
    refine ⟨rfl, rfl, rfl, by simp, ?_⟩
    have : ∀ p : String × String,
        (!(List.any [] (fun l : String × String => p.1 == l.1 && p.2 == l.2)))
          = true := by
      intro p; rfl
    rw [List.filter_eq_self.mpr (fun p _ => this p)]
  | cons l rest ih =>
    intro db db' h
    simp only [promoteLonely] at h
    split at h
    · cases h
    · split at h
      · cases h
      · have hr := ih _ _ h
        refine ⟨hr.1, hr.2.1, hr.2.2.1, ?_, ?_⟩
        · rw [hr.2.2.2.1]
          simp [List.append_assoc]
        · rw [hr.2.2.2.2]
          simp only [List.filter_filter]
          apply List.filter_congr
          intro p _
          simp only [List.any_cons]
          cases h1 : (p.1 == l.1 && p.2 == l.2) <;>
            cases h2 : rest.any (fun l => p.1 == l.1 && p.2 == l.2) <;> simp

theorem alertInsert_ok {f : Faults} {a : AlertRow} {db db' : DB}
    (h : Alert.Insert f a db = .ok db') :
    db'.zones = db.zones ∧ db'.alerts = db.alerts ++ [a] ∧
    db'.alertZones = db.alertZones ∧ db'.lonelyAlerts = db.lonelyAlerts ∧
    db'.nextZoneID = db.nextZoneID := by
  simp only [Alert.Insert] at h
  split at h
  · cases h
  · cases h
    exact ⟨rfl, rfl, rfl, rfl, rfl⟩

theorem referenceCollectionDelete_ok {f : Faults} :
    ∀ (refs : List String) (db db' : DB),
      ReferenceCollection.Delete f refs db = .ok db' →
      db'.zones = db.zones ∧ db'.nextZoneID = db.nextZoneID ∧
      db'.alerts = db.alerts.filter
        (fun a => !(refs.any (fun ref => a.id == ref))) ∧
      (∀ x ∈ db'.alertZones, x ∈ db.alertZones) ∧
      (∀ x ∈ db'.lonelyAlerts, x ∈ db.lonelyAlerts) := by
  intro refs
  induction refs with
  | nil =>
    intro db db' h
    cases h
    refine ⟨rfl, rfl, ?_, fun x hx => hx, fun x hx => hx⟩
    have : ∀ a : AlertRow,
        (!(List.any [] (fun ref => a.id == ref))) = true := by
      intro a; rfl
    rw [List.filter_eq_self.mpr (fun a _ => this a)]
  | cons r rest ih =>
    intro db db' h
    simp only [ReferenceCollection.Delete] at h
    cases hd : Reference.Delete f r db with
    | error e => rw [hd] at h; cases h
    | ok db1 =>
      rw [hd] at h
      have hstep : db1.zones = db.zones ∧ db1.nextZoneID = db.nextZoneID ∧
          db1.alerts = db.alerts.filter (fun a => a.id != r) ∧
          db1.alertZones = db.alertZones.filter (fun az => az.1 != r) ∧
          db1.lonelyAlerts = db.lonelyAlerts.filter (fun p => p.1 != r) := by
        simp only [Reference.Delete] at hd
        split at hd
        · cases hd
        · cases hd
          exact ⟨rfl, rfl, rfl, rfl, rfl⟩
      have hr := ih _ _ h
      refine ⟨hr.1.trans hstep.1, hr.2.1.trans hstep.2.1, ?_, ?_, ?_⟩
      · rw [hr.2.2.1, hstep.2.2.1]
        simp only [List.filter_filter]
        apply List.filter_congr
        intro a _
        simp only [List.any_cons]
        cases h1 : (a.id == r) <;>
          cases h2 : rest.any (fun ref => a.id == ref) <;> simp_all
      · intro x hx
        have := hr.2.2.2.1 x hx
        rw [hstep.2.2.2.1] at this
        exact List.mem_of_mem_filter this
      · intro x hx
        have := hr.2.2.2.2 x hx
        rw [hstep.2.2.2.2] at this
        exact List.mem_of_mem_filter this

theorem selectZoneID_none_iff {zones : List ZoneRow} {uri : String} :
    selectZoneID zones uri = none ↔ ∀ r ∈ zones, r.uri ≠ uri := by
  unfold selectZoneID
  constructor
  · intro h r hr he
    cases hf : zones.find? (fun q => q.uri == uri) with
    | none =>
      have := List.find?_eq_none.mp hf r hr
      simp [he] at this
    | some q => rw [hf] at h; cases h
  · intro h
    cases hf : zones.find? (fun q => q.uri == uri) with
    | none => rfl
    | some q =>
      have hq := List.find?_some hf
      have hmem := List.mem_of_find?_eq_some hf
      exact absurd (by simpa using hq) (h q hmem)

theorem selectZoneID_some_mem {zones : List ZoneRow} {uri : String} {zid : Nat}
    (h : selectZoneID zones uri = some zid) :
    ∃ r ∈ zones, r.uri = uri ∧ r.id = zid := by
  unfold selectZoneID at h
  cases hf : zones.find? (fun q => q.uri == uri) with
  | none => rw [hf] at h; cases h
  | some q =>
    rw [hf] at h
    have hq : q.uri = uri := by simpa using List.find?_some hf
    have hmem := List.mem_of_find?_eq_some hf
    have : q.id = zid := by cases h; rfl
    exact ⟨q, hmem, hq, this⟩

theorem insertAssociations_ok {f : Faults} {aid : String} :
    ∀ (uris : List String) (db db' : DB),
      insertAssociations f aid uris db = .ok db' →
      db'.zones = db.zones ∧ db'.alerts = db.alerts ∧
      db'.nextZoneID = db.nextZoneID ∧
      (∀ x ∈ db.alertZones, x ∈ db'.alertZones) ∧
      (∀ x ∈ db.lonelyAlerts, x ∈ db'.lonelyAlerts) ∧
      (∀ x ∈ db'.alertZones, x ∈ db.alertZones ∨ x.1 = aid) ∧
      (∀ x ∈ db'.lonelyAlerts, x ∈ db.lonelyAlerts ∨
          (x.1 = aid ∧ selectZoneID db.zones x.2 = none)) ∧
      (∀ uri ∈ uris,
          match selectZoneID db.zones uri with
          | some zid => (aid, zid) ∈ db'.alertZones
          | none => (aid, uri) ∈ db'.lonelyAlerts) := by
  intro uris
  induction uris with
  | nil =>
    intro db db' h
    cases h
    exact ⟨rfl, rfl, rfl, fun x hx => hx, fun x hx => hx,
      fun x hx => Or.inl hx, fun x hx => Or.inl hx, by intro uri h; cases h⟩
  | cons uri rest ih =>
    intro db db' h
    unfold insertAssociations at h
    split at h
    · next zid hsel =>
      split at h
      · cases h
      · have hr := ih _ _ h
        have hz : ({ db with alertZones := db.alertZones ++ [(aid, zid)] } : DB).zones
            = db.zones := rfl
        refine ⟨hr.1, hr.2.1, hr.2.2.1, ?_, hr.2.2.2.2.1, ?_, ?_, ?_⟩
        · intro x hx
          exact hr.2.2.2.1 x (List.mem_append.mpr (Or.inl hx))
        · intro x hx
          rcases hr.2.2.2.2.2.1 x hx with hx2 | hx2
          · rcases List.mem_append.mp hx2 with hx3 | hx3
            · exact Or.inl hx3
            · right
              have : x = (aid, zid) := List.mem_singleton.mp hx3
              rw [this]
          · exact Or.inr hx2
        · intro x hx
          exact hr.2.2.2.2.2.2.1 x hx
        · intro u hu
          rcases List.mem_cons.mp hu with rfl | hu2
          · rw [hsel]
            exact hr.2.2.2.1 (aid, zid)
              (List.mem_append.mpr (Or.inr (List.mem_singleton.mpr rfl)))
          · exact hr.2.2.2.2.2.2.2 u hu2
    · next hsel =>
      split at h
      · cases h
      · have hr := ih _ _ h
        refine ⟨hr.1, hr.2.1, hr.2.2.1, hr.2.2.2.1, ?_, ?_, ?_, ?_⟩
        · intro x hx
          exact hr.2.2.2.2.1 x (List.mem_append.mpr (Or.inl hx))
        · intro x hx
          exact hr.2.2.2.2.2.1 x hx
        · intro x hx
          rcases hr.2.2.2.2.2.2.1 x hx with hx2 | hx2
          · rcases List.mem_append.mp hx2 with hx3 | hx3
            · exact Or.inl hx3
            · right
              have : x = (aid, uri) := List.mem_singleton.mp hx3
              rw [this]
              exact ⟨rfl, hsel⟩
          · exact Or.inr hx2
        · intro u hu
          rcases List.mem_cons.mp hu with rfl | hu2
          · rw [hsel]
            exact hr.2.2.2.2.1 (aid, u)
              (List.mem_append.mpr (Or.inr (List.mem_singleton.mpr rfl)))
          · exact hr.2.2.2.2.2.2.2 u hu2

/-- C3: alert ingestion is atomic: the alert-row insert, the deletion of
every alert in the References list, and the insertion of all
AlertZone/LonelyAlert associations run in one transaction; if any step
fails, the returned state is the original one (nothing of the alert is
visible), and on success all three effects are visible. -/
theorem insertAlertTx_atomic (f : Faults) (r : Resource) (db : DB)
    (href : r.Alert.id ∉ r.References) :
    (∀ e, (Store.InsertAlertTx f r db).2 = some e →
        (Store.InsertAlertTx f r db).1 = db)
  ∧ ((Store.InsertAlertTx f r db).2 = none →
        r.Alert ∈ (Store.InsertAlertTx f r db).1.alerts
      ∧ (∀ ref ∈ r.References, ∀ a ∈ (Store.InsertAlertTx f r db).1.alerts,
            a.id ≠ ref)
      ∧ (∀ uri ∈ r.Zones,
            match selectZoneID db.zones uri with
            | some zid =>
                (r.Alert.id, zid) ∈ (Store.InsertAlertTx f r db).1.alertZones
            | none =>
                (r.Alert.id, uri) ∈ (Store.InsertAlertTx f r db).1.lonelyAlerts)) := by
  unfold Store.InsertAlertTx Store.tx
  beta_reduce
  cases ha : Alert.Insert f r.Alert db with
  | error e =>
    exact ⟨fun e2 he => rfl, fun hn => by simp at hn⟩
  | ok db1 =>
    dsimp only
    cases hrd : ReferenceCollection.Delete f r.References db1 with
    | error e =>
      exact ⟨fun e2 he => rfl, fun hn => by simp at hn⟩
    | ok db2 =>
      dsimp only
      cases hia : insertAssociations f r.Alert.id r.Zones db2 with
      | error e =>
        exact ⟨fun e2 he => rfl, fun hn => by simp at hn⟩
      | ok db3 =>
        dsimp only
        refine ⟨fun e2 he => by simp at he, fun _ => ?_⟩
        have hA := alertInsert_ok ha
        have hR := referenceCollectionDelete_ok r.References db1 db2 hrd
        have hI := insertAssociations_ok r.Zones db2 db3 hia
        have hzeq : db2.zones = db.zones := hR.1.trans hA.1
        have halerts3 : db3.alerts = db2.alerts := hI.2.1
        have halerts2 : db2.alerts
            = (db.alerts ++ [r.Alert]).filter
                (fun a => !(r.References.any (fun ref => a.id == ref))) := by
          rw [hR.2.2.1, hA.2.1]
        refine ⟨?_, ?_, ?_⟩
        · show r.Alert ∈ db3.alerts
          rw [halerts3, halerts2]
          apply List.mem_filter.mpr
          refine ⟨List.mem_append.mpr (Or.inr (List.mem_singleton.mpr rfl)), ?_⟩
          simp only [Bool.not_eq_eq_eq_not, Bool.not_true, List.any_eq_false]
          intro ref hr2 hbe
          have heq : r.Alert.id = ref := by simpa using hbe
          exact href (by rw [heq]; exact hr2)
        · intro ref hrf a ha3
          have ha3' : a ∈ db3.alerts := ha3
          rw [halerts3, halerts2] at ha3'
          have := (List.mem_filter.mp ha3').2
          simp only [Bool.not_eq_eq_eq_not, Bool.not_true, List.any_eq_false] at this
          have h2 := this ref hrf
          simpa using h2
        · intro uri hu
          have := hI.2.2.2.2.2.2.2 uri hu
          rw [hzeq] at this
          exact this

/-- C2's exclusivity invariant: no (alert id, zone URI) pair is represented
by both a LonelyAlert row and an AlertZone row (through the zone with that
URI). -/
def DB.LonelyInv (db : DB) : Prop :=
  ∀ l ∈ db.lonelyAlerts, ∀ zr ∈ db.zones,
    zr.uri = l.2 → (l.1, zr.id) ∉ db.alertZones

instance (db : DB) : Decidable db.LonelyInv := by
  unfold DB.LonelyInv
  infer_instance

/-- Schema facts maintained by the store (serial ids below the counter, FK
from association rows to alerts), used as preconditions. -/
def DB.WF (db : DB) : Prop :=
  (∀ zr ∈ db.zones, zr.id < db.nextZoneID) ∧
  (∀ az ∈ db.alertZones, ∃ a ∈ db.alerts, a.id = az.1) ∧
  (∀ l ∈ db.lonelyAlerts, ∃ a ∈ db.alerts, a.id = l.1)

instance (db : DB) : Decidable db.WF := by
  unfold DB.WF
  infer_instance

/-- C2: every (alert, zone URI) pair is represented by at most one of
AlertZone/LonelyAlert: alert ingestion records an AlertZone when the zone is
persisted and a LonelyAlert otherwise; inserting a zone converts, in the
same transaction, every LonelyAlert matching its URI into an AlertZone
carrying the new zone id and deletes the LonelyAlert rows (so the promotion
cannot fire twice), while a failed insert leaves the store unchanged; zone
Update and Delete never touch the LonelyAlert table nor add AlertZone rows;
and all four operations preserve the exclusivity invariant. -/
theorem lonely_alert_exclusive_promotion
    (f : Faults) (db : DB) (z : Zone) (r : Resource) (zoneID : Nat)
    (hwf : db.WF) (hinv : db.LonelyInv)
    (hfresh : ∀ a ∈ db.alerts, a.id ≠ r.Alert.id)
    (hupd : ∀ zr ∈ db.zones, zr.id = z.id → zr.uri = z.uri) :
    ((Store.InsertAlertTx f r db).2 = none →
       ∀ uri ∈ r.Zones,
         match selectZoneID db.zones uri with
         | some zid =>
             (r.Alert.id, zid) ∈ (Store.InsertAlertTx f r db).1.alertZones
         | none =>
             (r.Alert.id, uri) ∈ (Store.InsertAlertTx f r db).1.lonelyAlerts)
  ∧ ((Store.InsertZoneTx f z db).2 = none →
       (Store.InsertZoneTx f z db).1.lonelyAlerts
         = db.lonelyAlerts.filter (fun p => p.2 != z.uri)
     ∧ ∀ l ∈ db.lonelyAlerts, l.2 = z.uri →
         (l.1, db.nextZoneID) ∈ (Store.InsertZoneTx f z db).1.alertZones)
  ∧ (∀ e, (Store.InsertZoneTx f z db).2 = some e →
       (Store.InsertZoneTx f z db).1 = db)
  ∧ ((Store.UpdateZoneTx f z db).1.lonelyAlerts = db.lonelyAlerts
     ∧ (Store.UpdateZoneTx f z db).1.alertZones = db.alertZones)
  ∧ ((Store.DeleteZone f zoneID db).1.lonelyAlerts = db.lonelyAlerts
     ∧ ∀ x ∈ (Store.DeleteZone f zoneID db).1.alertZones, x ∈ db.alertZones)
  ∧ (Store.InsertAlertTx f r db).1.LonelyInv
  ∧ (Store.InsertZoneTx f z db).1.LonelyInv
  ∧ (Store.UpdateZoneTx f z db).1.LonelyInv
  ∧ (Store.DeleteZone f zoneID db).1.LonelyInv := by
  have hIA : ((Store.InsertAlertTx f r db).2 = none →
       ∀ uri ∈ r.Zones,
         match selectZoneID db.zones uri with
         | some zid =>
             (r.Alert.id, zid) ∈ (Store.InsertAlertTx f r db).1.alertZones
         | none =>
             (r.Alert.id, uri) ∈ (Store.InsertAlertTx f r db).1.lonelyAlerts)
      ∧ (Store.InsertAlertTx f r db).1.LonelyInv := by
    unfold Store.InsertAlertTx Store.tx
    beta_reduce
    cases ha : Alert.Insert f r.Alert db with
    | error e => exact ⟨fun hn => by simp at hn, hinv⟩
    | ok db1 =>
      dsimp only
      cases hrd : ReferenceCollection.Delete f r.References db1 with
      | error e => exact ⟨fun hn => by simp at hn, hinv⟩
      | ok db2 =>
        dsimp only
        cases hia : insertAssociations f r.Alert.id r.Zones db2 with
        | error e => exact ⟨fun hn => by simp at hn, hinv⟩
        | ok db3 =>
          dsimp only
          have hA := alertInsert_ok ha
          have hR := referenceCollectionDelete_ok r.References db1 db2 hrd
          have hI := insertAssociations_ok r.Zones db2 db3 hia
          have hz2 : db2.zones = db.zones := hR.1.trans hA.1
          have hz3 : db3.zones = db.zones := hI.1.trans hz2
          constructor
          · intro _ uri hu
            have := hI.2.2.2.2.2.2.2 uri hu
            rw [hz2] at this
            exact this
          · intro l hl zr hzr huri hpair
            have hzr0 : zr ∈ db.zones := by rw [← hz3]; exact hzr
            rcases hI.2.2.2.2.2.2.1 l hl with hl2 | ⟨hlaid, hlsel⟩
            · have hl1 := hR.2.2.2.2 l hl2
              have hl0 : l ∈ db.lonelyAlerts := by
                rw [← hA.2.2.2.1]; exact hl1
              rcases hI.2.2.2.2.2.1 (l.1, zr.id) hpair with hp2 | hpaid
              · have hp1 := hR.2.2.2.1 _ hp2
                have hp0 : (l.1, zr.id) ∈ db.alertZones := by
                  rw [← hA.2.2.1]; exact hp1
                exact hinv l hl0 zr hzr0 huri hp0
              · obtain ⟨a0, ha0, hid0⟩ := hwf.2.2 l hl0
                exact hfresh a0 ha0 (hid0.trans hpaid)
            · rw [hz2] at hlsel
              exact selectZoneID_none_iff.mp hlsel zr hzr0 huri
  have hIZ : ((Store.InsertZoneTx f z db).2 = none →
       (Store.InsertZoneTx f z db).1.lonelyAlerts
         = db.lonelyAlerts.filter (fun p => p.2 != z.uri)
     ∧ ∀ l ∈ db.lonelyAlerts, l.2 = z.uri →
         (l.1, db.nextZoneID) ∈ (Store.InsertZoneTx f z db).1.alertZones)
      ∧ (∀ e, (Store.InsertZoneTx f z db).2 = some e →
           (Store.InsertZoneTx f z db).1 = db)
      ∧ (Store.InsertZoneTx f z db).1.LonelyInv := by
    unfold Store.InsertZoneTx Store.tx
    beta_reduce
    cases hzi : Zone.Insert f z db with
    | error e => exact ⟨fun hn => by simp at hn, fun e2 he => rfl, hinv⟩
    | ok p =>
      obtain ⟨db1, zid⟩ := p
      dsimp only
      cases hpl : promoteLonely f zid
          (LonelyAlertCollection.Select db1 z.uri) db1 with
      | error e => exact ⟨fun hn => by simp at hn, fun e2 he => rfl, hinv⟩
      | ok db4 =>
        dsimp only
        have hZI := zoneInsert_ok hzi
        have hPL := promoteLonely_ok (LonelyAlertCollection.Select db1 z.uri)
          db1 db4 hpl
        have hls : LonelyAlertCollection.Select db1 z.uri
            = db.lonelyAlerts.filter (fun p => p.2 == z.uri) := by
          unfold LonelyAlertCollection.Select
          rw [hZI.2.2.2.2.1]
        have hlonely4 : db4.lonelyAlerts
            = db.lonelyAlerts.filter (fun p => p.2 != z.uri) := by
          rw [hPL.2.2.2.2, hZI.2.2.2.2.1, hls]
          apply List.filter_congr
          intro p hp
          cases heq : (p.2 == z.uri) with
          | true =>
            have hin : p ∈ db.lonelyAlerts.filter
                (fun q => q.2 == z.uri) := List.mem_filter.mpr ⟨hp, heq⟩
            have hany : (db.lonelyAlerts.filter (fun q => q.2 == z.uri)).any
                (fun l => p.1 == l.1 && p.2 == l.2) = true :=
              List.any_eq_true.mpr ⟨p, hin, by simp⟩
            rw [hany]
            simp only [Bool.not_true, bne]
            rw [heq]
            rfl
          | false =>
            have hany : (db.lonelyAlerts.filter (fun q => q.2 == z.uri)).any
                (fun l => p.1 == l.1 && p.2 == l.2) = false := by
              apply List.any_eq_false.mpr
              intro l hlm
              have hl2 : (l.2 == z.uri) = true := (List.mem_filter.mp hlm).2
              intro hcon
              have h1 : p.2 = l.2 := by
                have h3 := hcon
                rw [Bool.and_eq_true] at h3
                simpa using h3.2
              have h2 : l.2 = z.uri := by simpa using hl2
              have : (p.2 == z.uri) = true := by
                rw [h1, h2]; simp
              rw [heq] at this
              cases this
            rw [hany]
            simp only [Bool.not_false, bne]
            rw [heq]
            rfl
        have haz4 : db4.alertZones
            = db.alertZones
              ++ (db.lonelyAlerts.filter (fun p => p.2 == z.uri)).map
                  (fun l => (l.1, db.nextZoneID)) := by
          rw [hPL.2.2.2.1, hZI.2.2.2.1, hls, hZI.1]
        have hzones4 : db4.zones = db.zones ++ [zoneRowOf z db.nextZoneID] :=
          hPL.1.trans hZI.2.1
        refine ⟨fun _ => ⟨hlonely4, ?_⟩, fun e2 he => by simp at he, ?_⟩
        · intro l hl hluri
          rw [haz4]
          apply List.mem_append.mpr
          right
          apply List.mem_map.mpr
          refine ⟨l, List.mem_filter.mpr ⟨hl, by simp [hluri]⟩, rfl⟩
        · intro l hl zr hzr huri hpair
          rw [hlonely4] at hl
          have hl0 := List.mem_of_mem_filter hl
          have hlne : (l.2 != z.uri) = true := (List.mem_filter.mp hl).2
          have hlneq : l.2 ≠ z.uri := by simpa using hlne
          rw [hzones4] at hzr
          rcases List.mem_append.mp hzr with hzr0 | hrow
          · rw [haz4] at hpair
            rcases List.mem_append.mp hpair with hp0 | hpnew
            · exact hinv l hl0 zr hzr0 huri hp0
            · obtain ⟨l2, hl2m, hl2e⟩ := List.mem_map.mp hpnew
              have hzid : zr.id = db.nextZoneID := by
                have := congrArg Prod.snd hl2e
                simpa using this.symm
              have := hwf.1 zr hzr0
              rw [hzid] at this
              exact absurd this (lt_irrefl _)
          · have : zr = zoneRowOf z db.nextZoneID := List.mem_singleton.mp hrow
            have hzruri : zr.uri = z.uri := by rw [this]; rfl
            exact hlneq ((hzruri.symm).trans huri).symm
  have hUZ : ((Store.UpdateZoneTx f z db).1.lonelyAlerts = db.lonelyAlerts
      ∧ (Store.UpdateZoneTx f z db).1.alertZones = db.alertZones)
      ∧ (Store.UpdateZoneTx f z db).1.LonelyInv := by
    unfold Store.UpdateZoneTx Store.tx
    beta_reduce
    cases hzu : Zone.Update f z db with
    | error e => exact ⟨⟨rfl, rfl⟩, hinv⟩
    | ok db2 =>
      dsimp only
      have hU := zoneUpdate_ok hzu
      refine ⟨⟨hU.2.2.2.1, hU.2.2.1⟩, ?_⟩
      intro l hl zr hzr huri hpair
      rw [hU.2.2.2.1] at hl
      rw [hU.1] at hzr
      rw [hU.2.2.1] at hpair
      obtain ⟨zr0, hzr0, he⟩ := List.mem_map.mp hzr
      by_cases hid : (zr0.id == z.id) = true
      · have hzr0id : zr0.id = z.id := by simpa using hid
        have hzrval : zr = zoneRowOf z z.id := by
          rw [← he, if_pos hid]
        have hzruri : zr.uri = zr0.uri := by
          rw [hzrval]
          exact (hupd zr0 hzr0 hzr0id).symm
        have hzrid : zr.id = zr0.id := by
          rw [hzrval]
          exact hzr0id.symm
        rw [hzruri] at huri
        rw [hzrid] at hpair
        exact hinv l hl zr0 hzr0 huri hpair
      · have : zr = zr0 := by rw [← he, if_neg hid]
        rw [this] at huri hpair
        exact hinv l hl zr0 hzr0 huri hpair
  have hDZ : ((Store.DeleteZone f zoneID db).1.lonelyAlerts = db.lonelyAlerts
      ∧ ∀ x ∈ (Store.DeleteZone f zoneID db).1.alertZones, x ∈ db.alertZones)
      ∧ (Store.DeleteZone f zoneID db).1.LonelyInv := by
    unfold Store.DeleteZone
    cases hzd : Zone.Delete f zoneID db with
    | error e => exact ⟨⟨rfl, fun x hx => hx⟩, hinv⟩
    | ok db2 =>
      dsimp only
      have hD := zoneDelete_ok hzd
      refine ⟨⟨hD.2.2.2.1, ?_⟩, ?_⟩
      · intro x hx
        rw [hD.2.2.1] at hx
        exact List.mem_of_mem_filter hx
      · intro l hl zr hzr huri hpair
        rw [hD.2.2.2.1] at hl
        rw [hD.1] at hzr
        rw [hD.2.2.1] at hpair
        exact hinv l hl zr (List.mem_of_mem_filter hzr) huri
          (List.mem_of_mem_filter hpair)
  exact ⟨hIA.1, hIZ.1, hIZ.2.1, hUZ.1, hDZ.1, hIA.2, hIZ.2.2, hUZ.2, hDZ.2⟩

/-- C7: with cutoff `t`, CleanUp deletes exactly the alerts with
`Ends < t` plus those with `Ends IS NULL` and `Expires < t`; an alert with
NULL Ends and Expires after `t` is retained, and one with non-NULL Ends
after `t` is retained regardless of Expires; when the second delete fails,
the first delete's count and effect remain applied and are returned with
the error. -/
theorem cleanUp_retention (f : Faults) (t : Int) (db : DB)
    (hf1 : f (.endedDelete t) = false) :
    (f (.expiredDelete t) = false →
        (Service.CleanUp f t db).1.alerts
          = (db.alerts.filter (fun a => !(endedBefore a t))).filter
              (fun a => !(expiredBefore a t))
      ∧ (Service.CleanUp f t db).2.1
          = (db.alerts.filter (fun a => endedBefore a t)).length
            + ((db.alerts.filter (fun a => !(endedBefore a t))).filter
                (fun a => expiredBefore a t)).length
      ∧ (Service.CleanUp f t db).2.2 = none
      ∧ (∀ a ∈ db.alerts, ∀ e, a.ends = some e → e < t →
            a ∉ (Service.CleanUp f t db).1.alerts)
      ∧ (∀ a ∈ db.alerts, a.ends = none → a.expires < t →
            a ∉ (Service.CleanUp f t db).1.alerts)
      ∧ (∀ a ∈ db.alerts, a.ends = none → t < a.expires →
            a ∈ (Service.CleanUp f t db).1.alerts)
      ∧ (∀ a ∈ db.alerts, ∀ e, a.ends = some e → t < e →
            a ∈ (Service.CleanUp f t db).1.alerts))
  ∧ (f (.expiredDelete t) = true →
        (Service.CleanUp f t db).1
          = deleteAlertRows db (fun a => endedBefore a t)
      ∧ (Service.CleanUp f t db).2.1
          = (db.alerts.filter (fun a => endedBefore a t)).length
      ∧ (Service.CleanUp f t db).2.2
          = some (.sqlFault (.expiredDelete t))) := by
  unfold Service.CleanUp Store.DeleteEndedAlerts Store.DeleteExpiredAlerts
  rw [hf1]
  cases hf2 : f (.expiredDelete t) with
  | true =>
    constructor
    · intro hc
      cases hc
    · intro _
      exact ⟨rfl, rfl, rfl⟩
  | false =>
    refine ⟨fun _ => ?_, fun hc => by cases hc⟩
    have halerts : (deleteAlertRows db (fun a => endedBefore a t)).alerts
        = db.alerts.filter (fun a => !(endedBefore a t)) := rfl
    refine ⟨by rw [← halerts]; rfl, by rw [← halerts]; rfl, rfl, ?_, ?_, ?_, ?_⟩
    · intro a ha e he hlt hmem
      have h1 := List.mem_filter.mp (List.mem_of_mem_filter hmem)
      have h2 : (!(endedBefore a t)) = true := h1.2
      have h3 : endedBefore a t = true := by simp [endedBefore, he, hlt]
      rw [h3] at h2
      cases h2
    · intro a ha hnone hlt hmem
      have h1 := (List.mem_filter.mp hmem).2
      have h2 : (!(expiredBefore a t)) = true := h1
      have h3 : expiredBefore a t = true := by simp [expiredBefore, hnone, hlt]
      rw [h3] at h2
      cases h2
    · intro a ha hnone hgt
      apply List.mem_filter.mpr
      constructor
      · apply List.mem_filter.mpr
        refine ⟨ha, ?_⟩
        show (!(endedBefore a t)) = true
        have h3 : endedBefore a t = false := by simp [endedBefore, hnone]
        rw [h3]
        rfl
      · show (!(expiredBefore a t)) = true
        have h3 : expiredBefore a t = false := by
          simp only [expiredBefore, hnone]
          simp
          omega
        rw [h3]
        rfl
    · intro a ha e he hgt
      apply List.mem_filter.mpr
      constructor
      · apply List.mem_filter.mpr
        refine ⟨ha, ?_⟩
        show (!(endedBefore a t)) = true
        have h3 : endedBefore a t = false := by
          simp only [endedBefore, he]
          simp
          omega
        rw [h3]
        rfl
      · show (!(expiredBefore a t)) = true
        have h3 : expiredBefore a t = false := by
          simp [expiredBefore, he]
        rw [h3]
        rfl

/-- C10: the point-containment lookup never returns a "Cancel" alert — both
the explicit-boundary query and the zone-association query exclude them —
even though any alert (Cancel included) is persisted by InsertAlertTx like
every other. -/
theorem selectAlertsContains_excludes_cancel :
    (∀ (cont : List (Int × Int) → Point → Bool) (db : DB) (pt : Point),
        ∀ a ∈ Store.SelectAlertsContains cont db pt, a.messageType ≠ "Cancel")
  ∧ (∀ (f : Faults) (r : Resource) (db : DB),
        (∀ w, f w = false) → r.Alert.id ∉ r.References →
        (Store.InsertAlertTx f r db).2 = none
      ∧ r.Alert ∈ (Store.InsertAlertTx f r db).1.alerts) := by
  constructor
  · intro cont db pt a ha
    rcases List.mem_append.mp ha with h1 | h2
    · have hp := (List.mem_filter.mp h1).2
      have hp2 : (a.messageType != "Cancel" &&
          (match a.boundary with
           | some b => cont b pt
           | none => false)) = true := hp
      rw [Bool.and_eq_true] at hp2
      simpa using hp2.1
    · unfold AlertCollection.SelectPointless at h2
      obtain ⟨a0, ha0, hmem⟩ := List.mem_flatMap.mp h2
      obtain ⟨az, haz, hmem2⟩ := List.mem_flatMap.mp hmem
      obtain ⟨pr, hpr, hif⟩ := List.mem_filterMap.mp hmem2
      cases hcond : (pr.szID == az.2 && az.1 == a0.id &&
          a0.messageType != "Cancel" && cont pr.boundary pt) with
      | false => rw [hcond] at hif; cases hif
      | true =>
        rw [hcond] at hif
        have haa0 : a = a0 := by
          have h6 : some a0 = some a := hif
          cases h6
          rfl
        rw [Bool.and_eq_true, Bool.and_eq_true] at hcond
        have h5 : (a0.messageType != "Cancel") = true := hcond.1.2
        rw [haa0]
        simpa using h5
  · intro f r db hnf href
    unfold Store.InsertAlertTx Store.tx
    beta_reduce
    cases ha : Alert.Insert f r.Alert db with
    | error e =>
      exfalso
      simp only [Alert.Insert, hnf] at ha
      cases ha
    | ok db1 =>
      dsimp only
      cases hrd : ReferenceCollection.Delete f r.References db1 with
      | error e =>
        exfalso
        revert hrd
        clear ha
        induction r.References generalizing db1 with
        | nil => intro hrd; cases hrd
        | cons x rest ih =>
          intro hrd
          simp only [ReferenceCollection.Delete, Reference.Delete, hnf] at hrd
          exact ih _ hrd
      | ok db2 =>
        dsimp only
        cases hia : insertAssociations f r.Alert.id r.Zones db2 with
        | error e =>
          exfalso
          revert hia
          clear ha hrd
          induction r.Zones generalizing db2 with
          | nil => intro hia; cases hia
          | cons u rest ih =>
            intro hia
            unfold insertAssociations at hia
            split at hia
            · rw [hnf] at hia
              simp only [Bool.false_eq_true, if_false] at hia
              exact ih _ hia
            · rw [hnf] at hia
              simp only [Bool.false_eq_true, if_false] at hia
              exact ih _ hia
        | ok db3 =>
          dsimp only
          refine ⟨rfl, ?_⟩
          have hA := alertInsert_ok ha
          have hR := referenceCollectionDelete_ok r.References db1 db2 hrd
          have hI := insertAssociations_ok r.Zones db2 db3 hia
          show r.Alert ∈ db3.alerts
          rw [hI.2.1, hR.2.2.1, hA.2.1]
          apply List.mem_filter.mpr
          refine ⟨List.mem_append.mpr (Or.inr (List.mem_singleton.mpr rfl)), ?_⟩
          simp only [Bool.not_eq_eq_eq_not, Bool.not_true, List.any_eq_false]
          intro ref hr2 hbe
          have heq : r.Alert.id = ref := by simpa using hbe
          exact href (by rw [heq]; exact hr2)

/-! ### Concrete data for the store-claim witnesses -/

def noFaults : Faults := fun _ => false

def alertRowB : AlertRow :=
  { id := "B", expires := 10, ends := none, messageType := "Alert",
    boundary := none }

def alertRowC : AlertRow :=
  { id := "C", expires := 12, ends := some 11, messageType := "Update",
    boundary := none }

def alertRowA : AlertRow :=
  { id := "A", expires := 20, ends := none, messageType := "Update",
    boundary := none }

def zoneRowEx : ZoneRow :=
  { id := 1, uri := "zA", code := "c", ztype := "county", name := "Z",
    effectiveDate := 1, state := "IL" }

def dbC3 : DB :=
  { zones := [zoneRowEx], perimeters := [], holes := [],
    alerts := [alertRowB, alertRowC], alertZones := [("B", 1)],
    lonelyAlerts := [("C", "z9")], nextZoneID := 2, nextPerimeterID := 1 }

def resC3 : Resource :=
  { Alert := alertRowA, References := ["B", "C"], Zones := ["zA", "z9"] }

/-- Witness for C3 on a concrete store: alert "A" superseding "B" and "C",
one persisted zone and one not-yet-onboarded zone. -/
theorem insertAlertTx_atomic_witness :
    (resC3.Alert.id ∉ resC3.References)
  ∧ ((∀ e, (Store.InsertAlertTx noFaults resC3 dbC3).2 = some e →
        (Store.InsertAlertTx noFaults resC3 dbC3).1 = dbC3)
  ∧ ((Store.InsertAlertTx noFaults resC3 dbC3).2 = none →
        resC3.Alert ∈ (Store.InsertAlertTx noFaults resC3 dbC3).1.alerts
      ∧ (∀ ref ∈ resC3.References,
            ∀ a ∈ (Store.InsertAlertTx noFaults resC3 dbC3).1.alerts,
            a.id ≠ ref)
      ∧ (∀ uri ∈ resC3.Zones,
            match selectZoneID dbC3.zones uri with
            | some zid =>
                (resC3.Alert.id, zid)
                  ∈ (Store.InsertAlertTx noFaults resC3 dbC3).1.alertZones
            | none =>
                (resC3.Alert.id, uri)
                  ∈ (Store.InsertAlertTx noFaults resC3 dbC3).1.lonelyAlerts))) :=
  ⟨by decide, insertAlertTx_atomic noFaults resC3 dbC3 (by decide)⟩

def zoneC2 : Zone :=
  { id := 5, uri := "z9", code := "c9", ztype := "county", name := "Z9",
    effectiveDate := 3, state := "IL", createdAt := 0, updatedAt := 0,
    geometry := [] }

def dbC2 : DB :=
  { zones := [zoneRowEx], perimeters := [], holes := [],
    alerts := [alertRowB], alertZones := [],
    lonelyAlerts := [("B", "z9")], nextZoneID := 2, nextPerimeterID := 1 }

def resC2 : Resource :=
  { Alert := alertRowA, References := [], Zones := ["zA", "zz"] }

/-- Witness for C2: a store holding LonelyAlert ("B","z9"); inserting the
zone with URI "z9" promotes it; alert ingestion, update and delete behave
as claimed. -/
theorem lonely_alert_exclusive_promotion_witness :
    (dbC2.WF ∧ dbC2.LonelyInv
      ∧ (∀ a ∈ dbC2.alerts, a.id ≠ resC2.Alert.id)
      ∧ (∀ zr ∈ dbC2.zones, zr.id = zoneC2.id → zr.uri = zoneC2.uri))
  ∧ (((Store.InsertAlertTx noFaults resC2 dbC2).2 = none →
       ∀ uri ∈ resC2.Zones,
         match selectZoneID dbC2.zones uri with
         | some zid =>
             (resC2.Alert.id, zid)
               ∈ (Store.InsertAlertTx noFaults resC2 dbC2).1.alertZones
         | none =>
             (resC2.Alert.id, uri)
               ∈ (Store.InsertAlertTx noFaults resC2 dbC2).1.lonelyAlerts)
  ∧ ((Store.InsertZoneTx noFaults zoneC2 dbC2).2 = none →
       (Store.InsertZoneTx noFaults zoneC2 dbC2).1.lonelyAlerts
         = dbC2.lonelyAlerts.filter (fun p => p.2 != zoneC2.uri)
     ∧ ∀ l ∈ dbC2.lonelyAlerts, l.2 = zoneC2.uri →
         (l.1, dbC2.nextZoneID)
           ∈ (Store.InsertZoneTx noFaults zoneC2 dbC2).1.alertZones)
  ∧ (∀ e, (Store.InsertZoneTx noFaults zoneC2 dbC2).2 = some e →
       (Store.InsertZoneTx noFaults zoneC2 dbC2).1 = dbC2)
  ∧ ((Store.UpdateZoneTx noFaults zoneC2 dbC2).1.lonelyAlerts
        = dbC2.lonelyAlerts
     ∧ (Store.UpdateZoneTx noFaults zoneC2 dbC2).1.alertZones
        = dbC2.alertZones)
  ∧ ((Store.DeleteZone noFaults 1 dbC2).1.lonelyAlerts = dbC2.lonelyAlerts
     ∧ ∀ x ∈ (Store.DeleteZone noFaults 1 dbC2).1.alertZones,
         x ∈ dbC2.alertZones)
  ∧ (Store.InsertAlertTx noFaults resC2 dbC2).1.LonelyInv
  ∧ (Store.InsertZoneTx noFaults zoneC2 dbC2).1.LonelyInv
  ∧ (Store.UpdateZoneTx noFaults zoneC2 dbC2).1.LonelyInv
  ∧ (Store.DeleteZone noFaults 1 dbC2).1.LonelyInv) :=
  ⟨⟨by decide, by decide, by decide, by decide⟩,
   lonely_alert_exclusive_promotion noFaults dbC2 zoneC2 resC2 1
     (by decide) (by decide) (by decide) (by decide)⟩

def dbC7 : DB :=
  { zones := [], perimeters := [], holes := [],
    alerts :=
      [{ id := "E1", expires := 50, ends := some 4, messageType := "Alert",
         boundary := none },
       { id := "E2", expires := 4, ends := none, messageType := "Alert",
         boundary := none },
       { id := "E3", expires := 9, ends := none, messageType := "Alert",
         boundary := none },
       { id := "E4", expires := 3, ends := some 9, messageType := "Alert",
         boundary := none }],
    alertZones := [], lonelyAlerts := [], nextZoneID := 1,
    nextPerimeterID := 1 }

/-- Witness for C7 at cutoff t = 5 over four alerts covering the
ended/expired/retained cases. -/
theorem cleanUp_retention_witness :
    (noFaults (.endedDelete 5) = false)
  ∧ ((noFaults (.expiredDelete 5) = false →
        (Service.CleanUp noFaults 5 dbC7).1.alerts
          = (dbC7.alerts.filter (fun a => !(endedBefore a 5))).filter
              (fun a => !(expiredBefore a 5))
      ∧ (Service.CleanUp noFaults 5 dbC7).2.1
          = (dbC7.alerts.filter (fun a => endedBefore a 5)).length
            + ((dbC7.alerts.filter (fun a => !(endedBefore a 5))).filter
                (fun a => expiredBefore a 5)).length
      ∧ (Service.CleanUp noFaults 5 dbC7).2.2 = none
      ∧ (∀ a ∈ dbC7.alerts, ∀ e, a.ends = some e → e < 5 →
            a ∉ (Service.CleanUp noFaults 5 dbC7).1.alerts)
      ∧ (∀ a ∈ dbC7.alerts, a.ends = none → a.expires < 5 →
            a ∉ (Service.CleanUp noFaults 5 dbC7).1.alerts)
      ∧ (∀ a ∈ dbC7.alerts, a.ends = none → 5 < a.expires →
            a ∈ (Service.CleanUp noFaults 5 dbC7).1.alerts)
      ∧ (∀ a ∈ dbC7.alerts, ∀ e, a.ends = some e → 5 < e →
            a ∈ (Service.CleanUp noFaults 5 dbC7).1.alerts))
  ∧ (noFaults (.expiredDelete 5) = true →
        (Service.CleanUp noFaults 5 dbC7).1
          = deleteAlertRows dbC7 (fun a => endedBefore a 5)
      ∧ (Service.CleanUp noFaults 5 dbC7).2.1
          = (dbC7.alerts.filter (fun a => endedBefore a 5)).length
      ∧ (Service.CleanUp noFaults 5 dbC7).2.2
          = some (.sqlFault (.expiredDelete 5)))) :=
  ⟨by decide, cleanUp_retention noFaults 5 dbC7 (by decide)⟩

def dbC10 : DB := dbC3

def resC10 : Resource :=
  { Alert := { id := "K", expires := 9, ends := none,
               messageType := "Cancel", boundary := none },
    References := [], Zones := [] }

/-- Witness for C10: the persistence conjunct applied to a "Cancel" alert on
a concrete store (the query conjunct has no hypothesis and is applied to a
containment test returning true everywhere). -/
theorem selectAlertsContains_excludes_cancel_witness :
    ((∀ a ∈ Store.SelectAlertsContains (fun _ _ => true) dbC10 (0, 0),
        a.messageType ≠ "Cancel")
  ∧ ((∀ w, noFaults w = false) ∧ resC10.Alert.id ∉ resC10.References
  ∧ ((Store.InsertAlertTx noFaults resC10 dbC10).2 = none
      ∧ resC10.Alert ∈ (Store.InsertAlertTx noFaults resC10 dbC10).1.alerts))) :=
  ⟨selectAlertsContains_excludes_cancel.1 (fun _ _ => true) dbC10 (0, 0),
   fun _ => rfl, by decide,
   selectAlertsContains_excludes_cancel.2 noFaults resC10 dbC10
     (fun _ => rfl) (by decide)⟩

/-! ## Service.writeDelta (service.go:220) and claim C9 -/

/-- `state.SyncZoneFailure` (the error value is elided). -/
structure SyncZoneFailure where
  URI : String
  Op : String
deriving DecidableEq, Repr

/-- `state.SyncResult` (the State field is elided). -/
structure SyncResult where
  Inserts : List Zone
  Updates : List Zone
  Deletes : List Zone
  Fails : List SyncZoneFailure
deriving DecidableEq, Repr

/-- The trace of store mutations attempted by `writeDelta`. -/
structure SyncTrace where
  inserts : List String
  updates : List String
  deletes : List Nat
deriving DecidableEq, Repr

/-- The insert and update loops of `writeDelta`: for each delta zone with a
fetched counterpart, attempt the store write (`sf op uri = true` means the
store call fails, recorded under `op`); zones without a fetched counterpart
are skipped.  Returns (written zones, failures, attempted URIs). -/
def applyFetchedLoop (op : String) (sf : String → String → Bool)
    (fz : List (String × Zone)) :
    List Zone → List Zone × List SyncZoneFailure × List String
  | [] => ([], [], [])
  | zone :: rest =>
    let (ws, fails, tr) := applyFetchedLoop op sf fz rest
    match lookupURI fz zone.uri with
    | some z =>
      if sf op z.uri then
        (ws, { URI := z.uri, Op := op } :: fails, z.uri :: tr)
      else
        (z :: ws, fails, z.uri :: tr)
    | none => (ws, fails, tr)

/-- The delete loop of `writeDelta`: every delta Delete zone has its
deletion attempted. -/
def deleteLoop (sf : String → String → Bool) :
    List Zone → List Zone × List SyncZoneFailure × List Nat
  | [] => ([], [], [])
  | zone :: rest =>
    let (ds, fails, tr) := deleteLoop sf rest
    if sf "delete" zone.uri then
      (ds, { URI := zone.uri, Op := "delete" } :: fails, zone.id :: tr)
    else
      (zone :: ds, fails, zone.id :: tr)

/-- `Service.writeDelta`: compute the delta, fetch geometry for the
Insert∪Update zones, record fetch failures, then run the three store loops.
The remote outcomes (`o`) and store-write results (`sf`) are oracles. -/
def Service.writeDelta (updatedZones : List Zone) (storedZones : ZoneURIMap)
    (o : Zone → FetchOutcome) (sf : String → String → Bool) :
    SyncResult × SyncTrace :=
  let delta := Service.delta updatedZones storedZones
  let fetchResult := (Fetcher.FetchEach delta.InsertUpdate o).1
  let fetchFails := fetchResult.Fails.map
    (fun p => ({ URI := p.1, Op := "fetch" } : SyncZoneFailure))
  let ins := applyFetchedLoop "insert" sf fetchResult.Zones delta.Insert
  let upd := applyFetchedLoop "update" sf fetchResult.Zones delta.Update
  let del := deleteLoop sf delta.Delete
  ({ Inserts := ins.1, Updates := upd.1, Deletes := del.1,
     Fails := fetchFails ++ ins.2.1 ++ upd.2.1 ++ del.2.1 },
   { inserts := ins.2.2, updates := upd.2.2, deletes := del.2.2 })

theorem applyFetchedLoop_trace (op : String) (sf : String → String → Bool)
    (fz : List (String × Zone)) :
    ∀ zs : List Zone,
      (applyFetchedLoop op sf fz zs).2.2
        = zs.filterMap (fun zone =>
            match lookupURI fz zone.uri with
            | some z => some z.uri
            | none => none) := by
  intro zs
  induction zs with
  | nil => rfl
  | cons zone rest ih =>
    simp only [applyFetchedLoop]
    cases hlk : lookupURI fz zone.uri with
    | some z =>
      cases hsf : sf op z.uri with
      | true => simp [List.filterMap_cons, hlk, ih, hsf]
      | false => simp [List.filterMap_cons, hlk, ih, hsf]
    | none => simp [List.filterMap_cons, hlk, ih]

theorem applyFetchedLoop_fails (op : String) (sf : String → String → Bool)
    (fz : List (String × Zone)) :
    ∀ zs : List Zone,
      (applyFetchedLoop op sf fz zs).2.1
        = zs.filterMap (fun zone =>
            match lookupURI fz zone.uri with
            | some z =>
              if sf op z.uri
              then some ({ URI := z.uri, Op := op } : SyncZoneFailure)
              else none
            | none => none) := by
  intro zs
  induction zs with
  | nil => rfl
  | cons zone rest ih =>
    simp only [applyFetchedLoop]
    cases hlk : lookupURI fz zone.uri with
    | some z =>
      cases hsf : sf op z.uri with
      | true => simp [List.filterMap_cons, hlk, ih, hsf]
      | false => simp [List.filterMap_cons, hlk, ih, hsf]
    | none => simp [List.filterMap_cons, hlk, ih]

theorem deleteLoop_trace (sf : String → String → Bool) :
    ∀ zs : List Zone, (deleteLoop sf zs).2.2 = zs.map Zone.id := by
  intro zs
  induction zs with
  | nil => rfl
  | cons zone rest ih =>
    simp only [deleteLoop]
    cases hsf : sf "delete" zone.uri with
    | true => simp [ih, hsf]
    | false => simp [ih, hsf]

theorem deleteLoop_fails (sf : String → String → Bool) :
    ∀ zs : List Zone,
      (deleteLoop sf zs).2.1
        = zs.filterMap (fun zone =>
            if sf "delete" zone.uri
            then some ({ URI := zone.uri, Op := "delete" } : SyncZoneFailure)
            else none) := by
  intro zs
  induction zs with
  | nil => rfl
  | cons zone rest ih =>
    simp only [deleteLoop]
    cases hsf : sf "delete" zone.uri with
    | true => simp [List.filterMap_cons, ih, hsf]
    | false => simp [List.filterMap_cons, ih, hsf]

theorem mapWrite_key_val {α : Type} (g : α → String)
    {m : List (String × α)} {k : String} {v : α}
    (hm : ∀ p ∈ m, p.1 = g p.2) (hkv : k = g v) :
    ∀ p ∈ mapWrite m k v, p.1 = g p.2 := by
  intro p hp
  unfold mapWrite at hp
  split at hp
  · obtain ⟨q, hq, hqe⟩ := List.mem_map.mp hp
    by_cases hqk : (q.1 == k) = true
    · rw [if_pos hqk] at hqe
      rw [← hqe]
      exact hkv
    · rw [if_neg hqk] at hqe
      rw [← hqe]
      exact hm q hq
  · rcases List.mem_append.mp hp with h1 | h2
    · exact hm p h1
    · have : p = (k, v) := List.mem_singleton.mp h2
      rw [this]
      exact hkv

theorem fetchEach_zones_wf (zones : List Zone) (o : Zone → FetchOutcome) :
    ∀ p ∈ (Fetcher.FetchEach zones o).1.Zones, p.1 = p.2.uri := by
  induction zones with
  | nil => intro p hp; cases hp
  | cons z rest ih =>
    cases hoz : o z with
    | cancelled =>
      simp only [Fetcher.FetchEach, Fetcher.Fetch, hoz]
      exact ih
    | failed code =>
      simp only [Fetcher.FetchEach, Fetcher.Fetch, hoz]
      exact ih
    | fetched d =>
      simp only [Fetcher.FetchEach, Fetcher.Fetch, hoz]
      exact mapWrite_key_val Zone.uri ih rfl

theorem map_uri_filterMap (g : Zone → Option Zone)
    (hg : ∀ a b, g a = some b → b.uri = a.uri) :
    ∀ l : List Zone,
      (l.filterMap g).map Zone.uri
        = (l.filter (fun a => (g a).isSome)).map Zone.uri := by
  intro l
  induction l with
  | nil => rfl
  | cons a rest ih =>
    cases hga : g a with
    | none => simp [List.filterMap_cons, List.filter_cons, hga, ih]
    | some b =>
      simp [List.filterMap_cons, List.filter_cons, hga, ih, hg a b hga]

theorem delta_InsertUpdate_uri_nodup (fresh : List Zone) (stored : ZoneURIMap)
    (hf : (fresh.map Zone.uri).Nodup) (hs : stored.WF) :
    (((Service.delta fresh stored).InsertUpdate).map Zone.uri).Nodup := by
  unfold ZoneDelta.InsertUpdate
  rw [List.map_append, List.nodup_append]
  refine ⟨?_, ?_, ?_⟩
  · rw [delta_Insert_eq fresh stored hf hs]
    exact hf.sublist ((List.filter_sublist fresh).map Zone.uri)
  · rw [delta_Update_eq fresh stored hf hs]
    rw [map_uri_filterMap _ ?hg fresh]
    · exact hf.sublist ((List.filter_sublist fresh).map Zone.uri)
    · intro a b hab
      cases hlk : lookupURI stored a.uri with
      | none => rw [hlk] at hab; cases hab
      | some s =>
        rw [hlk] at hab
        dsimp only at hab
        by_cases hlt : s.effectiveDate < a.effectiveDate
        · rw [if_pos hlt] at hab
          have : s.copyUpdateableData a = b := by
            cases hab; rfl
          rw [← this]
          rfl
        · rw [if_neg hlt] at hab
          cases hab
  · intro k hk1 hk2
    obtain ⟨zi, hzi, hie⟩ := List.mem_map.mp hk1
    obtain ⟨zu, hzu, hue⟩ := List.mem_map.mp hk2
    rw [delta_Insert_eq fresh stored hf hs] at hzi
    have hnone : lookupURI stored zi.uri = none := by
      have := (List.mem_filter.mp hzi).2
      simpa [Option.isNone_iff_eq_none] using this
    obtain ⟨f2, hf2, s2, hlk2, _, he2⟩ := delta_Update_mem hf hs zu hzu
    have huu : zu.uri = f2.uri := by rw [he2]; rfl
    rw [hie] at hnone
    have hfk : f2.uri = k := huu.symm.trans hue
    rw [hfk, hnone] at hlk2
    cases hlk2

/-- C9: during writeDelta, an Insert- or Update-zone whose geometry fetch
failed is recorded only as a fetch failure — no insert and no update is
attempted for its URI — while every zone of the Delete set has its deletion
attempted regardless of any fetch failures. -/
theorem writeDelta_skips_unfetched_mutations
    (fresh : List Zone) (stored : ZoneURIMap)
    (o : Zone → FetchOutcome) (sf : String → String → Bool)
    (hf : (fresh.map Zone.uri).Nodup) (hs : stored.WF)
    (ho : ∀ z ∈ (Service.delta fresh stored).InsertUpdate,
        ∀ d, o z = .fetched d → d.uri = z.uri) :
    (∀ z ∈ (Service.delta fresh stored).InsertUpdate,
        z.uri ∈ ((Fetcher.FetchEach (Service.delta fresh stored).InsertUpdate
            o).1.Fails.map Prod.fst) →
          z.uri ∉ (Service.writeDelta fresh stored o sf).2.inserts
        ∧ z.uri ∉ (Service.writeDelta fresh stored o sf).2.updates
        ∧ ({ URI := z.uri, Op := "fetch" } : SyncZoneFailure)
            ∈ (Service.writeDelta fresh stored o sf).1.Fails
        ∧ (∀ fl ∈ (Service.writeDelta fresh stored o sf).1.Fails,
            fl.URI = z.uri → fl.Op = "fetch"))
  ∧ (∀ z ∈ (Service.delta fresh stored).Delete,
        z.id ∈ (Service.writeDelta fresh stored o sf).2.deletes) := by
  have e1 : (Service.writeDelta fresh stored o sf).2.inserts
      = (applyFetchedLoop "insert" sf
          (Fetcher.FetchEach (Service.delta fresh stored).InsertUpdate o).1.Zones
          (Service.delta fresh stored).Insert).2.2 := rfl
  have e2 : (Service.writeDelta fresh stored o sf).2.updates
      = (applyFetchedLoop "update" sf
          (Fetcher.FetchEach (Service.delta fresh stored).InsertUpdate o).1.Zones
          (Service.delta fresh stored).Update).2.2 := rfl
  have e3 : (Service.writeDelta fresh stored o sf).2.deletes
      = (deleteLoop sf (Service.delta fresh stored).Delete).2.2 := rfl
  have e4 : (Service.writeDelta fresh stored o sf).1.Fails
      = ((Fetcher.FetchEach (Service.delta fresh stored).InsertUpdate
            o).1.Fails.map
          (fun p => ({ URI := p.1, Op := "fetch" } : SyncZoneFailure)))
        ++ (applyFetchedLoop "insert" sf
            (Fetcher.FetchEach (Service.delta fresh stored).InsertUpdate
              o).1.Zones
            (Service.delta fresh stored).Insert).2.1
        ++ (applyFetchedLoop "update" sf
            (Fetcher.FetchEach (Service.delta fresh stored).InsertUpdate
              o).1.Zones
            (Service.delta fresh stored).Update).2.1
        ++ (deleteLoop sf (Service.delta fresh stored).Delete).2.1 := rfl
  have hnd := delta_InsertUpdate_uri_nodup fresh stored hf hs
  have hperm := fetchEach_keys_perm (Service.delta fresh stored).InsertUpdate
    o hnd ho
  have hzwf := fetchEach_zones_wf (Service.delta fresh stored).InsertUpdate o
  have hzfresh : ∀ z ∈ (Service.delta fresh stored).InsertUpdate,
      z.uri ∈ fresh.map Zone.uri := by
    intro z hz
    rcases List.mem_append.mp hz with hzi | hzu
    · rw [delta_Insert_eq fresh stored hf hs] at hzi
      exact List.mem_map_of_mem Zone.uri (List.mem_of_mem_filter hzi)
    · obtain ⟨f2, hf2, s2, _, _, he⟩ := delta_Update_mem hf hs z hzu
      have huf : z.uri = f2.uri := by rw [he]; rfl
      rw [huf]
      exact List.mem_map_of_mem Zone.uri hf2
  constructor
  · intro z hz hfailkey
    have hcnd := hperm.nodup_iff.mpr hnd
    have hdisj := List.disjoint_of_nodup_append hcnd
    have hnotZ : z.uri ∉
        ((Fetcher.FetchEach (Service.delta fresh stored).InsertUpdate
          o).1.Zones.map Prod.fst) :=
      fun h => hdisj h hfailkey
    have hlknone : lookupURI
        (Fetcher.FetchEach (Service.delta fresh stored).InsertUpdate
          o).1.Zones z.uri = none := by
      apply lookupURI_eq_none_iff.mpr
      intro p hp he
      exact hnotZ (he ▸ List.mem_map_of_mem Prod.fst hp)
    have hnoLoop : ∀ (op : String) (zs : List Zone),
        z.uri ∉ (applyFetchedLoop op sf
          (Fetcher.FetchEach (Service.delta fresh stored).InsertUpdate
            o).1.Zones zs).2.2 := by
      intro op zs hmem
      rw [applyFetchedLoop_trace] at hmem
      obtain ⟨zone, hzone, hzeq⟩ := List.mem_filterMap.mp hmem
      cases hlk : lookupURI
          (Fetcher.FetchEach (Service.delta fresh stored).InsertUpdate
            o).1.Zones zone.uri with
      | none => rw [hlk] at hzeq; cases hzeq
      | some z2 =>
        rw [hlk] at hzeq
        dsimp only at hzeq
        have h2 : z2.uri = z.uri := by injection hzeq
        have h3 : zone.uri = z2.uri := hzwf (zone.uri, z2) (lookupURI_mem hlk)
        rw [h3, h2, hlknone] at hlk
        cases hlk
    have hnoFail : ∀ (op : String) (zs : List Zone),
        ∀ fl ∈ (applyFetchedLoop op sf
          (Fetcher.FetchEach (Service.delta fresh stored).InsertUpdate
            o).1.Zones zs).2.1, fl.URI = z.uri → False := by
      intro op zs fl hfl hfu
      rw [applyFetchedLoop_fails] at hfl
      obtain ⟨zone, hzone, hzeq⟩ := List.mem_filterMap.mp hfl
      cases hlk : lookupURI
          (Fetcher.FetchEach (Service.delta fresh stored).InsertUpdate
            o).1.Zones zone.uri with
      | none => rw [hlk] at hzeq; cases hzeq
      | some z2 =>
        rw [hlk] at hzeq
        dsimp only at hzeq
        cases hsf : sf op z2.uri with
        | false => rw [hsf] at hzeq; simp at hzeq
        | true =>
          rw [hsf] at hzeq
          have hfl2 : some ({ URI := z2.uri, Op := op } : SyncZoneFailure)
              = some fl := hzeq
          have hfl3 : ({ URI := z2.uri, Op := op } : SyncZoneFailure) = fl := by
            injection hfl2
          have h2 : z2.uri = z.uri := by
            rw [← hfl3] at hfu
            exact hfu
          have h3 : zone.uri = z2.uri := hzwf (zone.uri, z2) (lookupURI_mem hlk)
          rw [h3, h2, hlknone] at hlk
          cases hlk
    refine ⟨?_, ?_, ?_, ?_⟩
    · rw [e1]; exact hnoLoop "insert" _
    · rw [e2]; exact hnoLoop "update" _
    · rw [e4]
      obtain ⟨p, hp, hpe⟩ := List.mem_map.mp hfailkey
      apply List.mem_append.mpr
      left
      apply List.mem_append.mpr
      left
      apply List.mem_append.mpr
      left
      apply List.mem_map.mpr
      exact ⟨p, hp, by rw [hpe]⟩
    · intro fl hfl hfu
      rw [e4] at hfl
      rcases List.mem_append.mp hfl with h123 | hdel
      · rcases List.mem_append.mp h123 with h12 | hupd
        · rcases List.mem_append.mp h12 with hfetch | hins
          · obtain ⟨p, hp, hpe⟩ := List.mem_map.mp hfetch
            rw [← hpe]
          · exact (hnoFail "insert" _ fl hins hfu).elim
        · exact (hnoFail "update" _ fl hupd hfu).elim
      · exfalso
        rw [deleteLoop_fails] at hdel
        obtain ⟨zone, hzone, hzeq⟩ := List.mem_filterMap.mp hdel
        cases hsf : sf "delete" zone.uri with
        | false => rw [hsf] at hzeq; simp at hzeq
        | true =>
          rw [hsf] at hzeq
          have hfl2 : some ({ URI := zone.uri, Op := "delete" } : SyncZoneFailure)
              = some fl := hzeq
          have hfl3 : ({ URI := zone.uri, Op := "delete" } : SyncZoneFailure)
              = fl := by injection hfl2
          have hzu : zone.uri = z.uri := by
            rw [← hfl3] at hfu
            exact hfu
          have hnin := delta_Delete_uri hf hs zone hzone
          rw [hzu] at hnin
          exact hnin (hzfresh z hz)
  · intro z hz
    rw [e3, deleteLoop_trace]
    exact List.mem_map_of_mem Zone.id hz

def storedC9 : ZoneURIMap :=
  [("z1", zStoredEx),
   ("zD", { zStoredEx with uri := "zD", id := 9, effectiveDate := 0 })]

def outcomeC9 (z : Zone) : FetchOutcome :=
  if z.uri = "z1" then .failed 500
  else .fetched { uri := z.uri, code := z.code, ztype := z.ztype,
                  name := z.name, effectiveDate := z.effectiveDate,
                  state := z.state, geometry := [] }

theorem outcomeC9_fetched_uri :
    ∀ z ∈ (Service.delta freshEx storedC9).InsertUpdate,
      ∀ d, outcomeC9 z = .fetched d → d.uri = z.uri := by
  intro z hz d hd
  unfold outcomeC9 at hd
  split at hd
  · cases hd
  · cases hd
    rfl

/-- Witness for C9: the fresh catalog updates zone "z1" (its fetch fails
with a 500) and drops zone "zD" (whose deletion must still be attempted). -/
theorem writeDelta_skips_unfetched_mutations_witness :
    ((freshEx.map Zone.uri).Nodup ∧ storedC9.WF
      ∧ (∀ z ∈ (Service.delta freshEx storedC9).InsertUpdate,
          ∀ d, outcomeC9 z = .fetched d → d.uri = z.uri))
  ∧ ((∀ z ∈ (Service.delta freshEx storedC9).InsertUpdate,
        z.uri ∈ ((Fetcher.FetchEach (Service.delta freshEx storedC9).InsertUpdate
            outcomeC9).1.Fails.map Prod.fst) →
          z.uri ∉ (Service.writeDelta freshEx storedC9 outcomeC9
              (fun _ _ => false)).2.inserts
        ∧ z.uri ∉ (Service.writeDelta freshEx storedC9 outcomeC9
              (fun _ _ => false)).2.updates
        ∧ ({ URI := z.uri, Op := "fetch" } : SyncZoneFailure)
            ∈ (Service.writeDelta freshEx storedC9 outcomeC9
                (fun _ _ => false)).1.Fails
        ∧ (∀ fl ∈ (Service.writeDelta freshEx storedC9 outcomeC9
              (fun _ _ => false)).1.Fails,
            fl.URI = z.uri → fl.Op = "fetch"))
  ∧ (∀ z ∈ (Service.delta freshEx storedC9).Delete,
        z.id ∈ (Service.writeDelta freshEx storedC9 outcomeC9
            (fun _ _ => false)).2.deletes)) :=
  ⟨⟨by decide, by decide, outcomeC9_fetched_uri⟩,
   writeDelta_skips_unfetched_mutations freshEx storedC9 outcomeC9
     (fun _ _ => false) (by decide) (by decide) outcomeC9_fetched_uri⟩
